import Mathlib

/-!
Verification of the ndn-group-encrypt (GEP) producer key-management engine and
consumer decryption pipeline, shallowly embedded from `src/producer.cpp` and
the consumer translation unit in `src/common.hpp`.

Machine integers are modelled by `Nat`/`Int`; a timeslot is its unix-millis
value.  Cryptographic primitives are kept symbolic: an oracle `encOk` tells
whether an RSA-OAEP wrap succeeds, and ciphertexts record the key and plain
bytes that produced them.  External calls (expressInterest, encryptData, the
error and completion callbacks) are recorded as an effect trace.
-/

namespace Gep

/-- Byte buffers are lists of byte values. -/
abbrev Buffer := List Nat

/-- An NDN name component.  The protocol only ever builds components from a
fixed set of literals (`FOR`, `READ`, `SAMPLE`, `ACCESS`, `E-KEY`, `D-KEY`,
`C-KEY`), from `time::toIsoString` applied to a unix-millis time point
(injective at millisecond resolution), or from arbitrary application data
(`gen`). -/
inductive Component where
  | cFOR | cREAD | cSAMPLE | cACCESS | cEKEY | cDKEY | cCKEY
  | iso (t : Nat)
  | gen (n : Nat)
deriving DecidableEq, Repr

/-- An NDN name: an ordered sequence of components. -/
abbrev NdnName := List Component

/-- Error codes surfaced through the error callback (from `error-code.hpp`). -/
inductive ErrorCode where
  | validation
  | dataRetrievalFailure
  | unsupportedEncryptionScheme
  | invalidEncryptedFormat
  | noDecryptKey
  | encryptionFailure
  | general
deriving DecidableEq, Repr

/-! ### Association lists

`std::unordered_map` / `std::map` state is embedded as association lists with
first-match lookup; `aset` mirrors `operator[]`-assignment (replace or add) and
`aerase` mirrors `erase`. -/

def alookup {α β : Type} [DecidableEq α] : List (α × β) → α → Option β
  | [], _ => none
  | (a, b) :: t, k => if a = k then some b else alookup t k

def aset {α β : Type} [DecidableEq α] : List (α × β) → α → β → List (α × β)
  | [], k, v => [(k, v)]
  | (a, b) :: t, k, v => if a = k then (k, v) :: t else (a, b) :: aset t k v

def aerase {α β : Type} [DecidableEq α] (l : List (α × β)) (k : α) : List (α × β) :=
  l.filter (fun p => decide (p.1 ≠ k))

/-! ### Producer data model (from `producer.hpp` declarations used by `producer.cpp`) -/

/-- Coverage information of the most recently observed E-KEY for one namespace
node (`struct KeyInfo`): default-constructed time points are the epoch. -/
structure KeyInfo where
  beginTimeslot : Nat
  endTimeslot : Nat
  keyBits : Buffer
deriving DecidableEq, Repr

/-- A signed C-KEY data packet produced by `algo::encryptData` with RSA-OAEP:
the name, the key-locator (E-KEY name), and a symbolic ciphertext remembering
the encryption key bits and the plaintext C-KEY bits. -/
structure DataPacket where
  name : NdnName
  keyLocator : NdnName
  encKey : Buffer
  plain : Buffer
deriving DecidableEq, Repr

/-- One in-flight C-KEY publication (`struct KeyRequest`), created with
`interestCount = m_ekeyInfo.size()`, an empty retrial map and no wrapped keys. -/
structure KeyRequest where
  interestCount : Int
  repeatAttempts : List (NdnName × Nat)
  encryptedKeys : List DataPacket
deriving DecidableEq, Repr

def KeyRequest.init (n : Nat) : KeyRequest := ⟨Int.ofNat n, [], []⟩

/-- The two mutation operations used on an `ndn::Exclude` by the producer:
`excludeAfter c` (rule out everything after `c`) and `excludeBefore c`
(rule out everything up to and including `c`), recorded syntactically. -/
structure Exclude where
  afterBound : Option Component
  beforeBound : Option Component
deriving DecidableEq, Repr

def Exclude.empty : Exclude := ⟨none, none⟩

def Exclude.excludeAfter (e : Exclude) (c : Component) : Exclude := ⟨some c, e.beforeBound⟩

def Exclude.excludeBefore (e : Exclude) (c : Component) : Exclude := ⟨e.afterBound, some c⟩

/-- An outbound producer interest: `Interest(name)` starts with an empty
exclude, no child selector, no link and no selected delegation. -/
structure PInterest where
  name : NdnName
  exclude : Exclude
  childSel : Option Nat
  linkAttached : Bool
  selDelegation : Option Nat
deriving DecidableEq, Repr

/-- Immutable construction-time producer configuration: `m_namespace`,
`m_maxRepeatAttempts` and `m_linkSize` (`m_useLink` is `m_linkSize > 0`). -/
structure ProducerCfg where
  namespc : NdnName
  maxRepeatAttempts : Nat
  linkSize : Nat
deriving DecidableEq, Repr

/-- Mutable producer state: the content-key database, `m_keyRequests` keyed by
unix-millis time count (a timeslot is its unix-millis value, so
`toUnixTimestamp(timeslot).count() = timeslot`), and `m_ekeyInfo`. -/
structure ProducerState where
  db : List (Nat × Buffer)
  keyRequests : List (Nat × KeyRequest)
  ekeyInfo : List (NdnName × KeyInfo)
deriving DecidableEq, Repr

/-- Error codes, network sends, crypto calls and callback invocations that the
producer performs, recorded as an observable trace.  `oob` marks a throwing
`m_keyRequests.at` lookup and `exn` a failed name/time parse. -/
inductive Effect where
  | sendInterest (i : PInterest) (delegationIndex : Nat)
  | encryptData (plain : Buffer) (eKeyName : NdnName) (encKey : Buffer)
  | errorCb (code : ErrorCode)
  | keysCb (timeCount : Nat) (keys : List DataPacket)
  | oob
  | exn
deriving DecidableEq, Repr

/-- Method to round the provided timeslot to the start of its wall-clock hour
(`getRoundedTimeslot` in `producer.cpp`). -/
def getRoundedTimeslot (t : Nat) : Nat := t / 3600000 * 3600000

/-- Modelled from the spec: the key-value store adapter (§4.4) is not under
`src/`; per the spec, content-key rows are keyed by the rounded timeslot, so
two timeslots within the same hour map to the same row. -/
def hasContentKey (db : List (Nat × Buffer)) (t : Nat) : Bool :=
  (alookup db (getRoundedTimeslot t)).isSome

/-- Modelled from the spec: `addContentKey(timeslot, bytes)` of the store
adapter (§4.4), keyed by the rounded timeslot. -/
def addContentKey (db : List (Nat × Buffer)) (t : Nat) (bits : Buffer) : List (Nat × Buffer) :=
  aset db (getRoundedTimeslot t) bits

/-- Modelled from the spec: `getContentKey(timeslot)` of the store adapter
(§4.4), keyed by the rounded timeslot. -/
def getContentKey (db : List (Nat × Buffer)) (t : Nat) : Buffer :=
  (alookup db (getRoundedTimeslot t)).getD []

/-- The content-key name composed by the producer:
`m_namespace / C-KEY / isoString(hourSlot)`. -/
def contentKeyNameOf (cfg : ProducerCfg) (t : Nat) : NdnName :=
  cfg.namespc ++ [Component.cCKEY, Component.iso (getRoundedTimeslot t)]

/-- Producer::updateKeyRequest: decrement `interestCount`; when it reaches zero
and the callback is non-null, deliver `encryptedKeys` and erase the KeyRequest.
The callback value is modelled by the boolean `cb` (`true` = non-null). -/
def updateKeyRequest (s : ProducerState) (timeCount : Nat) (cb : Bool) :
    ProducerState × List Effect :=
  match alookup s.keyRequests timeCount with
  | none => (s, [Effect.oob])
  | some kr =>
    let kr' : KeyRequest := ⟨kr.interestCount - 1, kr.repeatAttempts, kr.encryptedKeys⟩
    if kr'.interestCount = 0 ∧ cb = true then
      ({ s with keyRequests := aerase s.keyRequests timeCount },
       [Effect.keysCb timeCount kr'.encryptedKeys])
    else
      ({ s with keyRequests := aset s.keyRequests timeCount kr' }, [])

/-- Producer::encryptContentKey: read the C-KEY from the DB, RSA-OAEP-wrap it
under `encryptionKey` (the oracle `encOk key plain` decides whether
`algo::encryptData` succeeds or throws), sign, append the packet and call
`updateKeyRequest`; on a throw, report `EncryptionFailure` and return false. -/
def encryptContentKey (cfg : ProducerCfg) (encOk : Buffer → Buffer → Bool)
    (s : ProducerState) (encryptionKey : Buffer) (eKeyName : NdnName)
    (timeslot : Nat) (cb : Bool) : Bool × ProducerState × List Effect :=
  match alookup s.keyRequests timeslot with
  | none => (false, s, [Effect.oob])
  | some kr =>
    let keyName := contentKeyNameOf cfg timeslot
    let contentKey := getContentKey s.db timeslot
    if encOk encryptionKey contentKey then
      let cKeyData : DataPacket := ⟨keyName, eKeyName, encryptionKey, contentKey⟩
      let kr' : KeyRequest := ⟨kr.interestCount, kr.repeatAttempts, kr.encryptedKeys ++ [cKeyData]⟩
      let s' := { s with keyRequests := aset s.keyRequests timeslot kr' }
      let r := updateKeyRequest s' timeslot cb
      (true, r.1, Effect.encryptData contentKey eKeyName encryptionKey :: r.2)
    else
      (false, s, [Effect.encryptData contentKey eKeyName encryptionKey,
                  Effect.errorCb ErrorCode.encryptionFailure])

/-- Assignment `keyRequest.repeatAttempts[name] = v` through the reference
obtained from `m_keyRequests.at(timeCount)`. -/
def setRepeatAttempt (s : ProducerState) (timeCount : Nat) (k : NdnName) (v : Nat) :
    ProducerState :=
  match alookup s.keyRequests timeCount with
  | none => s
  | some kr =>
    let kr' : KeyRequest := ⟨kr.interestCount, aset kr.repeatAttempts k v, kr.encryptedKeys⟩
    { s with keyRequests := aset s.keyRequests timeCount kr' }

/-- The E-KEY retrieval loop of Producer::createContentKey over `m_ekeyInfo`:
an uncovered node gets `repeatAttempts[node] = 0` and an interest with the
prepared exclude and rightmost child selector; a covered node wraps the C-KEY
immediately under the cached key bits. -/
def ckLoop (cfg : ProducerCfg) (encOk : Buffer → Buffer → Bool) (timeslot : Nat)
    (cb : Bool) (timeRange : Exclude) :
    List (NdnName × KeyInfo) → ProducerState → ProducerState × List Effect
  | [], s => (s, [])
  | (k, info) :: rest, s =>
    if timeslot < info.beginTimeslot ∨ info.endTimeslot ≤ timeslot then
      let s' := setRepeatAttempt s timeslot k 0
      let r := ckLoop cfg encOk timeslot cb timeRange rest s'
      (r.1, Effect.sendInterest ⟨k, timeRange, some 1, false, none⟩ 0 :: r.2)
    else
      let eKeyName := k ++ [Component.iso info.beginTimeslot, Component.iso info.endTimeslot]
      let w := encryptContentKey cfg encOk s info.keyBits eKeyName timeslot cb
      let r := ckLoop cfg encOk timeslot cb timeRange rest w.2.1
      (r.1, w.2.2 ++ r.2)

/-- Producer::createContentKey: compose the content-key name; if the DB already
has a C-KEY for the timeslot, return the name at once; otherwise generate a
fresh AES key (`freshKey` stands for the RNG output), persist it, create the
KeyRequest (`std::map::insert` does not overwrite an existing entry) and run
the retrieval loop. -/
def createContentKey (cfg : ProducerCfg) (encOk : Buffer → Buffer → Bool)
    (s : ProducerState) (freshKey : Buffer) (timeslot : Nat) (cb : Bool) :
    NdnName × ProducerState × List Effect :=
  let contentKeyName := contentKeyNameOf cfg timeslot
  if hasContentKey s.db timeslot then
    (contentKeyName, s, [])
  else
    let s1 : ProducerState := { s with db := addContentKey s.db timeslot freshKey }
    let s2 : ProducerState := { s1 with keyRequests :=
        if (alookup s1.keyRequests timeslot).isSome then s1.keyRequests
        else (timeslot, KeyRequest.init s1.ekeyInfo.length) :: s1.keyRequests }
    let timeRange := Exclude.empty.excludeAfter (Component.iso timeslot)
    let r := ckLoop cfg encOk timeslot cb timeRange s2.ekeyInfo s2
    (contentKeyName, r.1, r.2)

/-- Name::get with a negative index: `getNeg n k` is `n.get(-k)`. -/
def getNeg (n : NdnName) (k : Nat) : Option Component := n.get? (n.length - k)

/-- time::fromIsoString applied to a component URI: succeeds exactly on
components produced by `time::toIsoString`. -/
def parseIso : Component → Option Nat
  | Component.iso t => some t
  | _ => none

/-- Producer::handleCoveringKey: parse the coverage bounds from the received
data name; a stale E-KEY (`timeslot >= end`) resets the retrial count and
re-issues the interest with its exclude extended by `excludeBefore(name[-2])`;
otherwise wrap the C-KEY and, on success, cache `{begin, end, payload}` in
`m_ekeyInfo[interestName]`. -/
def handleCoveringKey (cfg : ProducerCfg) (encOk : Buffer → Buffer → Bool)
    (s : ProducerState) (interest : PInterest) (dIdx : Nat) (keyName : NdnName)
    (payload : Buffer) (timeslot : Nat) (cb : Bool) : ProducerState × List Effect :=
  match alookup s.keyRequests timeslot with
  | none => (s, [Effect.oob])
  | some _ =>
    match getNeg keyName 2, getNeg keyName 1 with
    | some cStart, some cEnd =>
      match parseIso cStart, parseIso cEnd with
      | some b, some e =>
        if e ≤ timeslot then
          let s' := setRepeatAttempt s timeslot interest.name 0
          let timeRange := interest.exclude.excludeBefore cStart
          (s', [Effect.sendInterest ⟨interest.name, timeRange, some 1, false, none⟩ dIdx])
        else
          let w := encryptContentKey cfg encOk s payload keyName timeslot cb
          if w.1 then
            ({ w.2.1 with ekeyInfo := aset w.2.1.ekeyInfo interest.name ⟨b, e, payload⟩ }, w.2.2)
          else
            (w.2.1, w.2.2)
      | _, _ => (s, [Effect.exn])
    | _, _ => (s, [Effect.exn])

/-- Producer::handleNack: with a configured link, attach it (selecting
delegation 0) if the interest carried none, else advance to the next
delegation; when options run out, `updateKeyRequest` counts the fetch as
finished without a wrapped key. -/
def handleNackP (cfg : ProducerCfg) (s : ProducerState) (interest : PInterest)
    (dIdx : Nat) (timeslot : Nat) (cb : Bool) : ProducerState × List Effect :=
  if 0 < cfg.linkSize then
    match interest.selDelegation with
    | none =>
      (s, [Effect.sendInterest
            ⟨interest.name, interest.exclude, interest.childSel, true, some 0⟩ 0])
    | some _ =>
      if dIdx + 1 < cfg.linkSize then
        (s, [Effect.sendInterest
              ⟨interest.name, interest.exclude, interest.childSel, interest.linkAttached,
               some (dIdx + 1)⟩ (dIdx + 1)])
      else
        updateKeyRequest s timeslot cb
  else
    updateKeyRequest s timeslot cb

/-- Producer::handleTimeout: below `m_maxRepeatAttempts`, bump the retrial
count (the `operator[]` read default-inserts 0 first) and resend the identical
interest; otherwise treat the timeout as a NACK. -/
def handleTimeoutP (cfg : ProducerCfg) (s : ProducerState) (interest : PInterest)
    (dIdx : Nat) (timeslot : Nat) (cb : Bool) : ProducerState × List Effect :=
  match alookup s.keyRequests timeslot with
  | none => (s, [Effect.oob])
  | some kr =>
    let attempts := (alookup kr.repeatAttempts interest.name).getD 0
    let s0 := setRepeatAttempt s timeslot interest.name attempts
    if attempts < cfg.maxRepeatAttempts then
      let s' := setRepeatAttempt s0 timeslot interest.name (attempts + 1)
      (s', [Effect.sendInterest interest dIdx])
    else
      handleNackP cfg s0 interest dIdx timeslot cb

/-! ### The producer as an event system

The Face is single threaded and delivers exactly one of data/NACK/timeout per
expressed interest; `pending` holds the expressed interests still awaiting
their event, each remembering the timeslot and callback its handlers were
bound with. -/

structure PendInterest where
  interest : PInterest
  dIdx : Nat
  timeslot : Nat
  cb : Bool
deriving DecidableEq, Repr

structure PSys where
  ps : ProducerState
  pending : List PendInterest
deriving DecidableEq, Repr

inductive PEvent where
  | create (timeslot : Nat) (freshKey : Buffer) (cb : Bool)
  | netData (idx : Nat) (keyName : NdnName) (payload : Buffer)
  | netNack (idx : Nat)
  | netTimeout (idx : Nat)
deriving DecidableEq, Repr

/-- The pending interests registered by the `sendKeyInterest` calls of an
effect list, bound to the handler context `(timeslot, callback)`. -/
def toPending (t : Nat) (cb : Bool) (effs : List Effect) : List PendInterest :=
  effs.filterMap (fun e =>
    match e with
    | Effect.sendInterest i d => some ⟨i, d, t, cb⟩
    | _ => none)

def removeIdx {α : Type} : List α → Nat → List α
  | [], _ => []
  | _ :: t, 0 => t
  | h :: t, Nat.succ n => h :: removeIdx t n

/-- One event of the producer system: a `createContentKey` call, or delivery of
the data/NACK/timeout outcome of the pending interest at `idx` (an invalid
index is a no-op). -/
def step (cfg : ProducerCfg) (encOk : Buffer → Buffer → Bool) (sys : PSys)
    (ev : PEvent) : PSys × List Effect :=
  match ev with
  | PEvent.create t fresh cb =>
    let r := createContentKey cfg encOk sys.ps fresh t cb
    (⟨r.2.1, sys.pending ++ toPending t cb r.2.2⟩, r.2.2)
  | PEvent.netData idx keyName payload =>
    match sys.pending.get? idx with
    | none => (sys, [])
    | some p =>
      let r := handleCoveringKey cfg encOk sys.ps p.interest p.dIdx keyName payload p.timeslot p.cb
      (⟨r.1, removeIdx sys.pending idx ++ toPending p.timeslot p.cb r.2⟩, r.2)
  | PEvent.netNack idx =>
    match sys.pending.get? idx with
    | none => (sys, [])
    | some p =>
      let r := handleNackP cfg sys.ps p.interest p.dIdx p.timeslot p.cb
      (⟨r.1, removeIdx sys.pending idx ++ toPending p.timeslot p.cb r.2⟩, r.2)
  | PEvent.netTimeout idx =>
    match sys.pending.get? idx with
    | none => (sys, [])
    | some p =>
      let r := handleTimeoutP cfg sys.ps p.interest p.dIdx p.timeslot p.cb
      (⟨r.1, removeIdx sys.pending idx ++ toPending p.timeslot p.cb r.2⟩, r.2)

/-- All effects of running a sequence of events. -/
def runTrace (cfg : ProducerCfg) (encOk : Buffer → Buffer → Bool) :
    PSys → List PEvent → List Effect
  | _, [] => []
  | sys, ev :: evs =>
    let r := step cfg encOk sys ev
    r.2 ++ runTrace cfg encOk r.1 evs

/-- Number of pending interests bound to time count `t`. -/
def pendCount (pending : List PendInterest) (t : Nat) : Nat :=
  (pending.filter (fun p => decide (p.timeslot = t))).length

/-- Whether an effect is the completion callback of the KeyRequest at `t`. -/
def isKeysCbFor (t : Nat) : Effect → Bool
  | Effect.keysCb t' _ => t' == t
  | _ => false

/-- Projection of an effect trace to the expressed interests (with their
delegation indices), in order. -/
def sendsOf (effs : List Effect) : List (PInterest × Nat) :=
  effs.filterMap (fun e =>
    match e with
    | Effect.sendInterest i d => some (i, d)
    | _ => none)

/-- Projection of an effect trace to the `algo::encryptData` calls, in order. -/
def encsOf (effs : List Effect) : List (Buffer × NdnName × Buffer) :=
  effs.filterMap (fun e =>
    match e with
    | Effect.encryptData p n k => some (p, n, k)
    | _ => none)

/-- Projection of an effect trace to the completion-callback invocations. -/
def keysCbsOf (effs : List Effect) : List Effect :=
  effs.filter (fun e =>
    match e with
    | Effect.keysCb _ _ => true
    | _ => false)

/-- Number of interests in a trace expressed for namespace node `k`. -/
def countSendsTo (effs : List Effect) (k : NdnName) : Nat :=
  ((sendsOf effs).filter (fun pr => decide (pr.1.name = k))).length

/-- Whether one `m_ekeyInfo` entry fails to cover the timeslot, i.e. the loop
of `createContentKey` issues an interest for it (`producer.cpp` line 123). -/
def uncov (t : Nat) (e : NdnName × KeyInfo) : Bool :=
  decide (t < e.2.beginTimeslot ∨ e.2.endTimeslot ≤ t)

/-- The wrap-success count of the covered entries of an `m_ekeyInfo` list:
how many times the loop decrements `interestCount`. -/
def dcount (encOk : Buffer → Buffer → Bool) (ct : Buffer) (t : Nat)
    (l : List (NdnName × KeyInfo)) : Nat :=
  (l.filter (fun e => !uncov t e && encOk e.2.keyBits ct)).length

/-- The C-KEY packets wrapped by the covered entries of an `m_ekeyInfo` list,
in iteration order. -/
def wrapsOf (cfg : ProducerCfg) (encOk : Buffer → Buffer → Bool) (ct : Buffer)
    (t : Nat) (l : List (NdnName × KeyInfo)) : List DataPacket :=
  (l.filter (fun e => !uncov t e && encOk e.2.keyBits ct)).map
    (fun e => ⟨contentKeyNameOf cfg t,
               e.1 ++ [Component.iso e.2.beginTimeslot, Component.iso e.2.endTimeslot],
               e.2.keyBits, ct⟩)

/-- The retrial-map updates performed by the loop: every uncovered node is
reset to 0. -/
def updRA (t : Nat) (l : List (NdnName × KeyInfo)) (ra : List (NdnName × Nat)) :
    List (NdnName × Nat) :=
  l.foldl (fun ra e => if uncov t e then aset ra e.1 0 else ra) ra

/-- The per-timeslot accounting invariant of the producer event system: every
pending interest has a live KeyRequest, no KeyRequest owes fewer interests
than are pending for it, every KeyRequest has its DB row, and the request map
has no duplicate keys. -/
def Inv (sys : PSys) : Prop :=
  (∀ p ∈ sys.pending, (alookup sys.ps.keyRequests p.timeslot).isSome = true) ∧
  (∀ pr ∈ sys.ps.keyRequests,
      Int.ofNat (pendCount sys.pending pr.1) ≤ pr.2.interestCount) ∧
  (∀ pr ∈ sys.ps.keyRequests, hasContentKey sys.ps.db pr.1 = true) ∧
  (sys.ps.keyRequests.map Prod.fst).Nodup

instance (sys : PSys) : Decidable (Inv sys) := by
  unfold Inv
  infer_instance

/-- A KeyRequest that can no longer complete: it is live, its DB row exists
(so it can never be re-created), and it is owed strictly more interests than
are pending. -/
def Stuck (t : Nat) (sys : PSys) : Prop :=
  ∃ kr, alookup sys.ps.keyRequests t = some kr ∧
    Int.ofNat (pendCount sys.pending t) < kr.interestCount ∧
    hasContentKey sys.ps.db t = true

/-- Accounting of what one network-event handler does to the KeyRequest at the
timeslot `τ` it was bound to: either the interest count is preserved (retrial
or re-issue, at most one interest goes back out, no completion), or it is
decremented with the entry kept (no re-issue, no completion), or — only when
the decrement reaches zero — the entry is erased and the completion callback
for `τ` fires. -/
def HandlerAcct (s s' : ProducerState) (τ : Nat) (effs : List Effect) : Prop :=
  (alookup s.keyRequests τ = none ∧ alookup s'.keyRequests τ = none ∧
     (sendsOf effs).length ≤ 1 ∧ keysCbsOf effs = []) ∨
  (∃ kr kr', alookup s.keyRequests τ = some kr ∧
     alookup s'.keyRequests τ = some kr' ∧
     kr'.interestCount = kr.interestCount ∧
     (sendsOf effs).length ≤ 1 ∧ keysCbsOf effs = []) ∨
  (∃ kr kr', alookup s.keyRequests τ = some kr ∧
     alookup s'.keyRequests τ = some kr' ∧
     kr'.interestCount = kr.interestCount - 1 ∧
     sendsOf effs = [] ∧ keysCbsOf effs = []) ∨
  (∃ kr, alookup s.keyRequests τ = some kr ∧
     kr.interestCount - 1 = 0 ∧
     alookup s'.keyRequests τ = none ∧
     sendsOf effs = [] ∧
     (∃ ks, keysCbsOf effs = [Effect.keysCb τ ks]))

/-! ### Consumer data model (from the consumer translation unit) -/

/-- A consumer interest: the name, the attached link (as its delegation list)
and the selected delegation. -/
structure CInterest where
  name : NdnName
  link : Option (List NdnName)
  selDelegation : Option Nat
deriving DecidableEq, Repr

/-- The single network outcome the Face delivers for one expressed interest. -/
inductive NetEvent where
  | data | nack | timeout
deriving DecidableEq, Repr

/-- Outcome of Consumer::handleNack: either a re-issued interest with its new
delegation index, or `DataRetrievalFailure` reported with the interest URI. -/
inductive NackResult where
  | reissue (i : CInterest) (dIdx : Nat)
  | fail (uri : NdnName)
deriving DecidableEq, Repr

/-- Consumer::handleNack: with delegations available, attach the link and
select index 0 if none was carried, else advance the index; running out of
options reports `DataRetrievalFailure` with the interest URI. -/
def handleNackC (delegations : List NdnName) (i : CInterest) (dIdx : Nat) : NackResult :=
  if delegations.isEmpty then
    NackResult.fail i.name
  else
    match i.selDelegation with
    | none => NackResult.reissue ⟨i.name, some delegations, some 0⟩ 0
    | some _ =>
      if dIdx + 1 < delegations.length then
        NackResult.reissue ⟨i.name, i.link, some (dIdx + 1)⟩ (dIdx + 1)
      else
        NackResult.fail i.name

/-- The consumer retrieval loop around `sendInterest` / `handleTimeout` /
`handleNack`: each expressed interest (recorded with its retry budget) consumes
the next network event; a timeout within budget resends the identical interest
with `nRetrials - 1`, an exhausted budget falls through to the NACK handler,
and every NACK re-issue carries budget 0.  Returns the dispatch trace and
`some uri` when `DataRetrievalFailure` was reported. -/
def runC (delegations : List NdnName) :
    List NetEvent → CInterest → Int → Nat → List (CInterest × Int) × Option NdnName
  | [], i, n, _ => ([(i, n)], none)
  | NetEvent.data :: _, i, n, _ => ([(i, n)], none)
  | NetEvent.nack :: rest, i, n, dIdx =>
    (match handleNackC delegations i dIdx with
     | NackResult.reissue i' d' =>
       let r := runC delegations rest i' 0 d'
       ((i, n) :: r.1, r.2)
     | NackResult.fail u => ([(i, n)], some u))
  | NetEvent.timeout :: rest, i, n, dIdx =>
    if 0 < n then
      let r := runC delegations rest i (n - 1) dIdx
      ((i, n) :: r.1, r.2)
    else
      (match handleNackC delegations i dIdx with
       | NackResult.reissue i' d' =>
         let r := runC delegations rest i' 0 d'
         ((i, n) :: r.1, r.2)
       | NackResult.fail u => ([(i, n)], some u))

/-- Encryption algorithm identifiers carried by an EncryptedContent block. -/
inductive Algo where
  | aesCbc | rsaOaep | rsaPkcs
  | unknownAlgo (n : Nat)
deriving DecidableEq, Repr

/-- A decoded EncryptedContent block: algorithm, key locator, initialization
vector and payload. -/
structure EncryptedContent where
  algorithm : Algo
  keyLocator : NdnName
  initialVector : Buffer
  payload : Buffer
deriving DecidableEq, Repr

/-- Symbolic byte strings flowing through the consumer: raw wire bytes, or the
result of an AES-CBC / RSA-OAEP decryption. -/
inductive Bytes where
  | raw (bs : Buffer)
  | aesDec (key : Bytes) (iv : Buffer) (payload : Buffer)
  | rsaDec (key : Bytes) (payload : Buffer)
deriving DecidableEq, Repr

/-- Observable consumer actions: delivery of a plaintext to the
plain-text callback, or an error-callback invocation. -/
inductive CEffect where
  | plainText (b : Bytes)
  | consumerError (code : ErrorCode)
deriving DecidableEq, Repr

/-- Consumer::decrypt: dispatch on the block's algorithm; AES-CBC and RSA-OAEP
hand the symbolic plaintext to the continuation, anything else reports
`UnsupportedEncryptionScheme`. -/
def consumerDecrypt (blk : EncryptedContent) (keyBits : Bytes)
    (cont : Bytes → List CEffect) : List CEffect :=
  match blk.algorithm with
  | Algo.aesCbc => cont (Bytes.aesDec keyBits blk.initialVector blk.payload)
  | Algo.rsaOaep => cont (Bytes.rsaDec keyBits blk.payload)
  | _ => [CEffect.consumerError ErrorCode.unsupportedEncryptionScheme]

/-- Consumer::decryptDKey on the parsed sub-blocks of a D-KEY data packet.
A block count other than 2 reports `InvalidEncryptedFormat` but — exactly as
the source — does not return; processing continues with the first two
sub-blocks.  The consumer database `getKey` (spec-modelled §4.4: keyed rows
for consumer D-KEYs by name, empty when absent) supplies the consumer key.
`none` models the undefined iterator dereference when fewer than two blocks
exist. -/
def decryptDKey (db : List (NdnName × Buffer)) (elements : List EncryptedContent) :
    Option (List CEffect) :=
  let fmtErrs :=
    if elements.length = 2 then []
    else [CEffect.consumerError ErrorCode.invalidEncryptedFormat]
  match elements.get? 0 with
  | none => none
  | some encryptedNonce =>
    let consumerKeyName := encryptedNonce.keyLocator
    let consumerKeyBuf := (alookup db consumerKeyName).getD []
    if consumerKeyBuf = [] then
      some (fmtErrs ++ [CEffect.consumerError ErrorCode.noDecryptKey])
    else
      match elements.get? 1 with
      | none => none
      | some encryptedPayload =>
        some (fmtErrs ++
          consumerDecrypt encryptedNonce (Bytes.raw consumerKeyBuf)
            (fun nonceKeyBits =>
              consumerDecrypt encryptedPayload nonceKeyBits
                (fun d => [CEffect.plainText d])))

/-- Outcome of the D-KEY stage selection inside Consumer::decryptCKey. -/
inductive CKeyStep where
  | useCached (keyBits : Buffer)
  | fetchDKey (interestName : NdnName)
deriving DecidableEq, Repr

/-- Consumer::decryptCKey, name-derivation part: from the E-KEY name found in
the C-KEY block's key locator, build the D-KEY name
(`getPrefix(-3)` / `D-KEY` / `getSubName(-2)`); use the cached D-KEY if
present, otherwise fetch `<dKeyName>/FOR/<consumerName>`.  Returns the derived
D-KEY name together with the chosen continuation. -/
def decryptCKey (dKeyMap : List (NdnName × Buffer)) (consumerName : NdnName)
    (eKeyName : NdnName) : NdnName × CKeyStep :=
  let dKeyName :=
    (eKeyName.take (eKeyName.length - 3)) ++ [Component.cDKEY] ++
      (eKeyName.drop (eKeyName.length - 2))
  match alookup dKeyMap dKeyName with
  | some kb => (dKeyName, CKeyStep.useCached kb)
  | none => (dKeyName, CKeyStep.fetchDKey (dKeyName ++ [Component.cFOR] ++ consumerName))

theorem alookup_aset_self {α β : Type} [DecidableEq α] (l : List (α × β)) (k : α) (v : β) :
    alookup (aset l k v) k = some v := by
  induction l with
  | nil => simp [aset, alookup]
  | cons hd t ih =>
    obtain ⟨a, b⟩ := hd
    by_cases hk : a = k
    · simp [aset, hk, alookup]
    · simp [aset, hk, alookup, ih]

theorem alookup_aset_ne {α β : Type} [DecidableEq α] (l : List (α × β)) (k k' : α) (v : β)
    (h : k' ≠ k) : alookup (aset l k v) k' = alookup l k' := by
  have hk : k ≠ k' := fun hh => h hh.symm
  induction l with
  | nil => simp [aset, alookup, hk]
  | cons hd t ih =>
    obtain ⟨a, b⟩ := hd
    by_cases ha : a = k
    · subst ha
      simp [aset, alookup, hk]
    · by_cases ha' : a = k'
      · simp [aset, ha, alookup, ha', h]
      · simp [aset, ha, alookup, ha', ih]

theorem alookup_aerase_self {α β : Type} [DecidableEq α] (l : List (α × β)) (k : α) :
    alookup (aerase l k) k = none := by
  induction l with
  | nil => simp [aerase, alookup]
  | cons hd t ih =>
    obtain ⟨a, b⟩ := hd
    by_cases hk : a = k
    · simpa [aerase, hk, List.filter] using ih
    · simpa [aerase, hk, List.filter, alookup] using ih

theorem alookup_aerase_ne {α β : Type} [DecidableEq α] (l : List (α × β)) (k k' : α)
    (h : k' ≠ k) : alookup (aerase l k) k' = alookup l k' := by
  induction l with
  | nil => simp [aerase, alookup]
  | cons hd t ih =>
    obtain ⟨a, b⟩ := hd
    by_cases hk : a = k
    · subst hk
      simpa [aerase, List.filter, alookup, Ne.symm h] using ih
    · by_cases ha' : a = k'
      · subst ha'
        simp [aerase, List.filter, alookup, h]
      · simpa [aerase, hk, List.filter, alookup, ha'] using ih

theorem aerase_aset {α β : Type} [DecidableEq α] (l : List (α × β)) (k : α) (v : β) :
    aerase (aset l k v) k = aerase l k := by
  induction l with
  | nil => simp [aset, aerase, List.filter]
  | cons hd t ih =>
    obtain ⟨a, b⟩ := hd
    by_cases hk : a = k
    · simp [aset, hk, aerase, List.filter]
    · simp [aset, hk, aerase, List.filter] at ih ⊢
      simpa [hk] using ih

theorem aset_aset {α β : Type} [DecidableEq α] (l : List (α × β)) (k : α) (v w : β) :
    aset (aset l k v) k w = aset l k w := by
  induction l with
  | nil => simp [aset]
  | cons hd t ih =>
    obtain ⟨a, b⟩ := hd
    by_cases hk : a = k
    · simp [aset, hk]
    · simp [aset, hk, ih]

theorem mem_aset {α β : Type} [DecidableEq α] (l : List (α × β)) (k : α) (v : β)
    (p : α × β) (h : p ∈ aset l k v) : p = (k, v) ∨ p ∈ l := by
  induction l with
  | nil => simpa [aset] using h
  | cons hd t ih =>
    obtain ⟨a, b⟩ := hd
    by_cases hk : a = k
    · simp [aset, hk] at h
      rcases h with h | h
      · exact Or.inl (by simp [h])
      · exact Or.inr (List.mem_cons_of_mem _ h)
    · simp [aset, hk] at h
      rcases h with h | h
      · exact Or.inr (by simp [h])
      · rcases ih h with h' | h'
        · exact Or.inl h'
        · exact Or.inr (List.mem_cons_of_mem _ h')

theorem mem_aerase {α β : Type} [DecidableEq α] (l : List (α × β)) (k : α)
    (p : α × β) (h : p ∈ aerase l k) : p ∈ l :=
  List.mem_of_mem_filter h

theorem alookup_mem {α β : Type} [DecidableEq α] (l : List (α × β)) (k : α) (v : β)
    (h : alookup l k = some v) : (k, v) ∈ l := by
  induction l with
  | nil => simp [alookup] at h
  | cons hd t ih =>
    obtain ⟨a, b⟩ := hd
    by_cases hk : a = k
    · simp [alookup, hk] at h
      subst hk
      subst h
      exact List.mem_cons_self _ _
    · simp [alookup, hk] at h
      exact List.mem_cons_of_mem _ (ih h)

theorem alookup_eq_none {α β : Type} [DecidableEq α] (l : List (α × β)) (k : α) :
    alookup l k = none ↔ k ∉ l.map Prod.fst := by
  induction l with
  | nil => simp [alookup]
  | cons hd t ih =>
    obtain ⟨a, b⟩ := hd
    by_cases hk : a = k
    · simp [alookup, hk]
    · have hka : ¬ k = a := fun hh => hk hh.symm
      have h1 : alookup ((a, b) :: t) k = alookup t k := by simp [alookup, hk]
      rw [h1, ih, List.map_cons]
      simp [hka]

theorem alookup_isSome_aset {α β : Type} [DecidableEq α] (l : List (α × β)) (k k' : α) (v : β)
    (h : (alookup l k').isSome = true) : (alookup (aset l k v) k').isSome = true := by
  by_cases hk : k' = k
  · rw [hk, alookup_aset_self]; rfl
  · rwa [alookup_aset_ne _ _ _ _ hk]

theorem nodup_aset {α β : Type} [DecidableEq α] (l : List (α × β)) (k : α) (v : β)
    (h : (l.map Prod.fst).Nodup) : ((aset l k v).map Prod.fst).Nodup := by
  induction l with
  | nil => simp [aset]
  | cons hd t ih =>
    obtain ⟨a, b⟩ := hd
    rw [List.map_cons, List.nodup_cons] at h
    by_cases hk : a = k
    · subst hk
      have ha : aset ((a, b) :: t) a v = (a, v) :: t := by simp [aset]
      rw [ha, List.map_cons, List.nodup_cons]
      exact ⟨h.1, h.2⟩
    · simp only [aset, if_neg hk, List.map_cons, List.nodup_cons]
      refine ⟨?_, ih h.2⟩
      intro hmem
      rcases List.mem_map.mp hmem with ⟨p, hp, hpa⟩
      rcases mem_aset t k v p hp with h' | h'
      · rw [h'] at hpa
        exact hk hpa.symm
      · exact h.1 (List.mem_map.mpr ⟨p, h', hpa⟩)

theorem nodup_aerase {α β : Type} [DecidableEq α] (l : List (α × β)) (k : α)
    (h : (l.map Prod.fst).Nodup) : ((aerase l k).map Prod.fst).Nodup := by
  have hs : List.Sublist (aerase l k) l := List.filter_sublist l
  exact (hs.map Prod.fst).nodup h

theorem mem_alookup {α β : Type} [DecidableEq α] (l : List (α × β)) (k : α) (v : β)
    (hnd : (l.map Prod.fst).Nodup) (h : (k, v) ∈ l) : alookup l k = some v := by
  induction l with
  | nil => simp at h
  | cons hd t ih =>
    obtain ⟨a, b⟩ := hd
    rw [List.map_cons, List.nodup_cons] at hnd
    rcases List.mem_cons.mp h with h' | h'
    · obtain ⟨h1, h2⟩ := Prod.ext_iff.mp h'
      simp only [] at h1 h2
      subst h1
      subst h2
      simp [alookup]
    · have hk : ¬ a = k := by
        intro hh
        subst hh
        exact hnd.1 (by simpa using List.mem_map_of_mem Prod.fst h')
      simp only [alookup, if_neg hk]
      exact ih hnd.2 h'

theorem createContentKey_fst (cfg : ProducerCfg) (encOk : Buffer → Buffer → Bool)
    (s : ProducerState) (fresh : Buffer) (t : Nat) (cb : Bool) :
    (createContentKey cfg encOk s fresh t cb).1 = contentKeyNameOf cfg t := by
  unfold createContentKey
  split <;> rfl

theorem getRounded_le (t : Nat) : getRoundedTimeslot t ≤ t := by
  unfold getRoundedTimeslot
  omega

theorem getRounded_mod (t : Nat) : getRoundedTimeslot t % 3600000 = 0 := by
  unfold getRoundedTimeslot
  omega

theorem getRounded_lt (t : Nat) : t < getRoundedTimeslot t + 3600000 := by
  unfold getRoundedTimeslot
  omega

theorem getRounded_congr {t1 t2 : Nat} (h : t1 / 3600000 = t2 / 3600000) :
    getRoundedTimeslot t1 = getRoundedTimeslot t2 := by
  unfold getRoundedTimeslot
  rw [h]

/-- C7: `createContentKey(t)` returns `m_namespace / C-KEY / isoString(floorHour t)`
where `floorHour` floors the unix-millis value to a multiple of 3 600 000 not
exceeding `t`; two timeslots of the same hour yield the same content-key name
and address the same content-key database row. -/
theorem claim_C7_hour_rounding (cfg : ProducerCfg) (encOk : Buffer → Buffer → Bool)
    (s : ProducerState) (fresh : Buffer) (t t1 t2 : Nat) (cb : Bool) :
    (createContentKey cfg encOk s fresh t cb).1 =
      cfg.namespc ++ [Component.cCKEY, Component.iso (getRoundedTimeslot t)] ∧
    getRoundedTimeslot t % 3600000 = 0 ∧
    getRoundedTimeslot t ≤ t ∧
    t < getRoundedTimeslot t + 3600000 ∧
    (t1 / 3600000 = t2 / 3600000 →
      (createContentKey cfg encOk s fresh t1 cb).1 =
        (createContentKey cfg encOk s fresh t2 cb).1 ∧
      ∀ db, hasContentKey db t1 = hasContentKey db t2 ∧
        getContentKey db t1 = getContentKey db t2) := by
  refine ⟨createContentKey_fst .., getRounded_mod t, getRounded_le t, getRounded_lt t, ?_⟩
  intro h
  have hr := getRounded_congr h
  refine ⟨?_, ?_⟩
  · rw [createContentKey_fst, createContentKey_fst]
    unfold contentKeyNameOf
    rw [hr]
  · intro db
    unfold hasContentKey getContentKey
    rw [hr]
    exact ⟨rfl, rfl⟩

/-- Witness for C7 at concrete inputs: timeslots 100 and 3 599 999 lie in the
same hour, so the produced content-key names coincide. -/
theorem claim_C7_hour_rounding_witness :
    (100 : Nat) / 3600000 = 3599999 / 3600000 ∧
    (createContentKey ⟨[Component.gen 0], 1, 0⟩ (fun _ _ => true) ⟨[], [], []⟩ [1] 100 false).1 =
      (createContentKey ⟨[Component.gen 0], 1, 0⟩ (fun _ _ => true) ⟨[], [], []⟩ [1] 3599999 false).1 := by
  refine ⟨by decide, ?_⟩
  exact ((claim_C7_hour_rounding ⟨[Component.gen 0], 1, 0⟩ (fun _ _ => true) ⟨[], [], []⟩
    [1] 100 100 3599999 false).2.2.2.2 (by decide)).1

/-- C9: when the DB already has a content key for the timeslot,
`createContentKey` returns the content-key name and changes nothing: no key is
generated or persisted, no interest is issued, and the KeyRequest map,
`m_ekeyInfo` and the database are untouched. -/
theorem claim_C9_existing_key_frame (cfg : ProducerCfg) (encOk : Buffer → Buffer → Bool)
    (s : ProducerState) (fresh : Buffer) (t : Nat) (cb : Bool)
    (h : hasContentKey s.db t = true) :
    createContentKey cfg encOk s fresh t cb = (contentKeyNameOf cfg t, s, []) := by
  unfold createContentKey
  simp [h]

/-- Witness for C9 at a concrete state whose DB has the hour-0 row. -/
theorem claim_C9_existing_key_frame_witness :
    hasContentKey ([((0 : Nat), [(7 : Nat)])] : List (Nat × Buffer)) 5 = true ∧
    createContentKey ⟨[Component.gen 0], 1, 0⟩ (fun _ _ => true) ⟨[(0, [7])], [], []⟩ [1] 5 true =
      (contentKeyNameOf ⟨[Component.gen 0], 1, 0⟩ 5, ⟨[(0, [7])], [], []⟩, []) :=
  ⟨by decide,
   claim_C9_existing_key_frame ⟨[Component.gen 0], 1, 0⟩ (fun _ _ => true)
     ⟨[(0, [7])], [], []⟩ [1] 5 true (by decide)⟩

theorem take_append_len {α : Type} (p l : List α) : (p ++ l).take p.length = p := by
  induction p with
  | nil => simp
  | cons a t ih => simp [ih]

theorem drop_append_len_add {α : Type} (p l : List α) (n : Nat) :
    (p ++ l).drop (p.length + n) = l.drop n := by
  induction p with
  | nil => simp
  | cons a t ih => simp [Nat.succ_add, ih]

/-- C8: for an E-KEY name with at least three components, the D-KEY name is the
E-KEY name with its last three components dropped, then `D-KEY`, then the last
two components of the E-KEY name; and when that D-KEY is not cached, stage 3
fetches `<dKeyName>/FOR/<consumerName>`. -/
theorem claim_C8_dkey_name (dKeyMap : List (NdnName × Buffer)) (consumerName : NdnName)
    (p : NdnName) (a b c : Component) :
    (decryptCKey dKeyMap consumerName (p ++ [a, b, c])).1 =
      p ++ [Component.cDKEY, b, c] ∧
    (alookup dKeyMap (p ++ [Component.cDKEY, b, c]) = none →
      (decryptCKey dKeyMap consumerName (p ++ [a, b, c])).2 =
        CKeyStep.fetchDKey ((p ++ [Component.cDKEY, b, c]) ++
          [Component.cFOR] ++ consumerName)) := by
  have hlen : (p ++ [a, b, c]).length = p.length + 3 := by simp
  have htake : (p ++ [a, b, c]).take ((p ++ [a, b, c]).length - 3) = p := by
    rw [hlen]
    simp
  have hdrop : (p ++ [a, b, c]).drop ((p ++ [a, b, c]).length - 2) = [b, c] := by
    rw [hlen]
    have : p.length + 3 - 2 = p.length + 1 := by omega
    rw [this]
    simp
  have hname : (p ++ [a, b, c]).take ((p ++ [a, b, c]).length - 3) ++
      [Component.cDKEY] ++ (p ++ [a, b, c]).drop ((p ++ [a, b, c]).length - 2) =
      p ++ [Component.cDKEY, b, c] := by
    rw [htake, hdrop]
    simp
  constructor
  · unfold decryptCKey
    rw [hname]
    dsimp only
    cases h' : alookup dKeyMap (p ++ [Component.cDKEY, b, c]) <;> simp [h']
  · intro hmiss
    unfold decryptCKey
    rw [hname]
    dsimp only
    rw [hmiss]

/-- Witness for C8 at a concrete uncached E-KEY name. -/
theorem claim_C8_dkey_name_witness :
    (decryptCKey [] [Component.gen 9]
        ([Component.gen 1] ++ [Component.cEKEY, Component.iso 3, Component.iso 4])).2 =
      CKeyStep.fetchDKey (([Component.gen 1] ++
        [Component.cDKEY, Component.iso 3, Component.iso 4]) ++
        [Component.cFOR] ++ [Component.gen 9]) :=
  (claim_C8_dkey_name [] [Component.gen 9] [Component.gen 1]
    Component.cEKEY (Component.iso 3) (Component.iso 4)).2 (by decide)

theorem updateKeyRequest_spec (s : ProducerState) (t : Nat) (cb : Bool) (kr : KeyRequest)
    (h : alookup s.keyRequests t = some kr) :
    updateKeyRequest s t cb =
      if kr.interestCount - 1 = 0 ∧ cb = true then
        ({ s with keyRequests := aerase s.keyRequests t },
         [Effect.keysCb t kr.encryptedKeys])
      else
        ({ s with keyRequests := aset s.keyRequests t ⟨kr.interestCount - 1, kr.repeatAttempts, kr.encryptedKeys⟩ }, []) := by
  unfold updateKeyRequest
  rw [h]

theorem encryptContentKey_spec (cfg : ProducerCfg) (encOk : Buffer → Buffer → Bool)
    (s : ProducerState) (key : Buffer) (eName : NdnName) (t : Nat) (cb : Bool)
    (kr : KeyRequest) (h : alookup s.keyRequests t = some kr) :
    encryptContentKey cfg encOk s key eName t cb =
      if encOk key (getContentKey s.db t) then
        if kr.interestCount - 1 = 0 ∧ cb = true then
          (true, { s with keyRequests := aerase s.keyRequests t },
           [Effect.encryptData (getContentKey s.db t) eName key,
            Effect.keysCb t (kr.encryptedKeys ++
              [⟨contentKeyNameOf cfg t, eName, key, getContentKey s.db t⟩])])
        else
          (true, { s with keyRequests := aset s.keyRequests t ⟨kr.interestCount - 1, kr.repeatAttempts, kr.encryptedKeys ++ [⟨contentKeyNameOf cfg t, eName, key, getContentKey s.db t⟩]⟩ },
           [Effect.encryptData (getContentKey s.db t) eName key])
      else
        (false, s, [Effect.encryptData (getContentKey s.db t) eName key,
                    Effect.errorCb ErrorCode.encryptionFailure]) := by
  unfold encryptContentKey
  rw [h]
  dsimp only
  by_cases hok : encOk key (getContentKey s.db t)
  · rw [if_pos hok, if_pos hok]
    have hset : alookup (aset s.keyRequests t
        ⟨kr.interestCount, kr.repeatAttempts, kr.encryptedKeys ++
          [⟨contentKeyNameOf cfg t, eName, key, getContentKey s.db t⟩]⟩) t =
        some ⟨kr.interestCount, kr.repeatAttempts, kr.encryptedKeys ++
          [⟨contentKeyNameOf cfg t, eName, key, getContentKey s.db t⟩]⟩ :=
      alookup_aset_self ..
    rw [updateKeyRequest_spec _ _ _ _ hset]
    by_cases hz : kr.interestCount - 1 = 0 ∧ cb = true
    · rw [if_pos hz, if_pos hz]
      rw [aerase_aset]
    · rw [if_neg hz, if_neg hz]
      rw [aset_aset]
  · rw [if_neg hok, if_neg hok]

theorem setRepeatAttempt_spec (s : ProducerState) (t : Nat) (k : NdnName) (v : Nat)
    (kr : KeyRequest) (h : alookup s.keyRequests t = some kr) :
    setRepeatAttempt s t k v =
      { s with keyRequests := aset s.keyRequests t ⟨kr.interestCount, aset kr.repeatAttempts k v, kr.encryptedKeys⟩ } := by
  unfold setRepeatAttempt
  rw [h]

/-- C3 counterexample: with the null callback (as passed by `produce()`) a
successful wrap that brings `interestCount` to zero invokes no completion
callback and leaves the KeyRequest in `m_keyRequests`, contradicting the
claim's "for every value of the caller-supplied callback, including the null
callback". -/
theorem claim_C3_null_callback_counterexample :
    (encryptContentKey ⟨[Component.gen 0], 1, 0⟩ (fun _ _ => true)
        ⟨[(0, [7])], [(5, ⟨1, [], []⟩)], []⟩ [2] [Component.gen 9] 5 false).1 = true ∧
    alookup (encryptContentKey ⟨[Component.gen 0], 1, 0⟩ (fun _ _ => true)
        ⟨[(0, [7])], [(5, ⟨1, [], []⟩)], []⟩ [2] [Component.gen 9] 5 false).2.1.keyRequests 5 =
      some ⟨0, [],
        [⟨[Component.gen 0, Component.cCKEY, Component.iso 0], [Component.gen 9], [2], [7]⟩]⟩ ∧
    keysCbsOf (encryptContentKey ⟨[Component.gen 0], 1, 0⟩ (fun _ _ => true)
        ⟨[(0, [7])], [(5, ⟨1, [], []⟩)], []⟩ [2] [Component.gen 9] 5 false).2.2 = [] := by
  decide

/-- C3 (amended): each successful wrap decrements `interestCount` by one;
when it reaches zero and the callback is non-null, the callback is invoked
exactly once with the accumulated `encryptedKeys` and the KeyRequest is erased;
with the null callback (as passed by `produce()`) the zero-count entry is
neither completed nor erased. -/
theorem claim_C3_completion (cfg : ProducerCfg) (encOk : Buffer → Buffer → Bool)
    (s : ProducerState) (key : Buffer) (eName : NdnName) (t : Nat) (cb : Bool)
    (kr : KeyRequest) (h : alookup s.keyRequests t = some kr)
    (hok : encOk key (getContentKey s.db t) = true) :
    (encryptContentKey cfg encOk s key eName t cb).1 = true ∧
    (cb = true → kr.interestCount - 1 = 0 →
      (encryptContentKey cfg encOk s key eName t cb).2.2 =
        [Effect.encryptData (getContentKey s.db t) eName key,
         Effect.keysCb t (kr.encryptedKeys ++
           [⟨contentKeyNameOf cfg t, eName, key, getContentKey s.db t⟩])] ∧
      alookup (encryptContentKey cfg encOk s key eName t cb).2.1.keyRequests t = none) ∧
    (cb = false ∨ kr.interestCount - 1 ≠ 0 →
      (encryptContentKey cfg encOk s key eName t cb).2.2 =
        [Effect.encryptData (getContentKey s.db t) eName key] ∧
      alookup (encryptContentKey cfg encOk s key eName t cb).2.1.keyRequests t =
        some ⟨kr.interestCount - 1, kr.repeatAttempts, kr.encryptedKeys ++
          [⟨contentKeyNameOf cfg t, eName, key, getContentKey s.db t⟩]⟩) := by
  rw [encryptContentKey_spec cfg encOk s key eName t cb kr h, if_pos hok]
  refine ⟨?_, ?_, ?_⟩
  · split <;> rfl
  · intro hcb hz
    rw [if_pos ⟨hz, hcb⟩]
    exact ⟨rfl, alookup_aerase_self ..⟩
  · intro hcase
    have hz : ¬ (kr.interestCount - 1 = 0 ∧ cb = true) := by
      rcases hcase with hc | hc
      · rintro ⟨_, hcb⟩
        rw [hc] at hcb
        exact Bool.false_ne_true hcb
      · rintro ⟨hz', _⟩
        exact hc hz'
    rw [if_neg hz]
    exact ⟨rfl, alookup_aset_self ..⟩

/-- Witness for C3's amended theorem: a non-null callback with `interestCount`
1 completes and erases; the same state with count 2 stores the decremented
entry. -/
theorem claim_C3_completion_witness :
    alookup ([((5 : Nat), (⟨1, [], []⟩ : KeyRequest))]) 5 = some ⟨1, [], []⟩ ∧
    ((fun _ _ => true) : Buffer → Buffer → Bool) [2]
      (getContentKey ([((0 : Nat), [(7 : Nat)])]) 5) = true ∧
    alookup (encryptContentKey ⟨[Component.gen 0], 1, 0⟩ (fun _ _ => true)
        ⟨[(0, [7])], [(5, ⟨1, [], []⟩)], []⟩ [2] [Component.gen 9] 5 true).2.1.keyRequests 5 =
      none := by
  refine ⟨by decide, by decide, ?_⟩
  exact ((claim_C3_completion ⟨[Component.gen 0], 1, 0⟩ (fun _ _ => true)
    ⟨[(0, [7])], [(5, ⟨1, [], []⟩)], []⟩ [2] [Component.gen 9] 5 true
    ⟨1, [], []⟩ (by decide) (by decide)).2.1 rfl (by decide)).2

theorem get?_append_len_add {α : Type} (p l : List α) (n : Nat) :
    (p ++ l).get? (p.length + n) = l.get? n := by
  induction p with
  | nil => simp
  | cons a t ih =>
    have hidx : t.length + 1 + n = (t.length + n) + 1 := by omega
    simp only [List.cons_append, List.length_cons, hidx, List.get?]
    exact ih

theorem getNeg_last2 (p : NdnName) (x y : Component) :
    getNeg (p ++ [x, y]) 2 = some x ∧ getNeg (p ++ [x, y]) 1 = some y := by
  constructor
  · have h : (p ++ [x, y]).length - 2 = p.length + 0 := by simp
    rw [getNeg, h, get?_append_len_add]
    rfl
  · have h : (p ++ [x, y]).length - 1 = p.length + 1 := by simp
    rw [getNeg, h, get?_append_len_add]
    rfl

/-- C5: `handleCoveringKey` on a received E-KEY named `pfx/iso(b)/iso(e)`.
If `e ≤ timeslot` (stale), `repeatAttempts[interestName]` is reset to 0 and
the same interest is re-issued with its exclude extended by
`excludeBefore(iso b)`, ChildSelector 1, with `m_ekeyInfo` untouched.
Otherwise wrapping is attempted (`algo::encryptData` is called), and
`m_ekeyInfo[interestName]` becomes `{b, e, payload}` exactly when the wrap
succeeds — on failure the whole state is unchanged. -/
theorem claim_C5_covering_key (cfg : ProducerCfg) (encOk : Buffer → Buffer → Bool)
    (s : ProducerState) (kr : KeyRequest) (interest : PInterest) (dIdx : Nat)
    (pfx : NdnName) (b e : Nat) (payload : Buffer) (t : Nat) (cb : Bool)
    (h : alookup s.keyRequests t = some kr) :
    (e ≤ t →
      handleCoveringKey cfg encOk s interest dIdx
          (pfx ++ [Component.iso b, Component.iso e]) payload t cb =
        (setRepeatAttempt s t interest.name 0,
         [Effect.sendInterest
           ⟨interest.name, interest.exclude.excludeBefore (Component.iso b),
            some 1, false, none⟩ dIdx]) ∧
      (setRepeatAttempt s t interest.name 0).ekeyInfo = s.ekeyInfo ∧
      alookup (setRepeatAttempt s t interest.name 0).keyRequests t =
        some ⟨kr.interestCount, aset kr.repeatAttempts interest.name 0, kr.encryptedKeys⟩) ∧
    (t < e →
      Effect.encryptData (getContentKey s.db t)
          (pfx ++ [Component.iso b, Component.iso e]) payload ∈
        (handleCoveringKey cfg encOk s interest dIdx
          (pfx ++ [Component.iso b, Component.iso e]) payload t cb).2 ∧
      (encOk payload (getContentKey s.db t) = true →
        alookup (handleCoveringKey cfg encOk s interest dIdx
            (pfx ++ [Component.iso b, Component.iso e]) payload t cb).1.ekeyInfo
            interest.name = some ⟨b, e, payload⟩) ∧
      (encOk payload (getContentKey s.db t) = false →
        (handleCoveringKey cfg encOk s interest dIdx
          (pfx ++ [Component.iso b, Component.iso e]) payload t cb).1 = s)) := by
  obtain ⟨hg2, hg1⟩ := getNeg_last2 pfx (Component.iso b) (Component.iso e)
  constructor
  · intro he
    refine ⟨?_, ?_, ?_⟩
    · unfold handleCoveringKey
      rw [h, hg2, hg1]
      simp only [parseIso]
      rw [if_pos he]
    · rw [setRepeatAttempt_spec s t interest.name 0 kr h]
    · rw [setRepeatAttempt_spec s t interest.name 0 kr h]
      exact alookup_aset_self ..
  · intro hlt
    have hne : ¬ (e ≤ t) := by omega
    have hunf : handleCoveringKey cfg encOk s interest dIdx
        (pfx ++ [Component.iso b, Component.iso e]) payload t cb =
        (if (encryptContentKey cfg encOk s payload
              (pfx ++ [Component.iso b, Component.iso e]) t cb).1 then
          ({ (encryptContentKey cfg encOk s payload
              (pfx ++ [Component.iso b, Component.iso e]) t cb).2.1 with
            ekeyInfo := aset (encryptContentKey cfg encOk s payload
              (pfx ++ [Component.iso b, Component.iso e]) t cb).2.1.ekeyInfo
              interest.name ⟨b, e, payload⟩ },
           (encryptContentKey cfg encOk s payload
             (pfx ++ [Component.iso b, Component.iso e]) t cb).2.2)
        else
          ((encryptContentKey cfg encOk s payload
              (pfx ++ [Component.iso b, Component.iso e]) t cb).2.1,
           (encryptContentKey cfg encOk s payload
             (pfx ++ [Component.iso b, Component.iso e]) t cb).2.2)) := by
      unfold handleCoveringKey
      rw [h, hg2, hg1]
      simp only [parseIso]
      rw [if_neg hne]
    rw [hunf]
    rw [encryptContentKey_spec cfg encOk s payload
      (pfx ++ [Component.iso b, Component.iso e]) t cb kr h]
    by_cases hok : encOk payload (getContentKey s.db t)
    · rw [if_pos hok]
      by_cases hz : kr.interestCount - 1 = 0 ∧ cb = true
      · rw [if_pos hz]
        refine ⟨by simp, fun _ => by simp [alookup_aset_self], fun hcon => ?_⟩
        rw [hok] at hcon
        simp at hcon
      · rw [if_neg hz]
        refine ⟨by simp, fun _ => by simp [alookup_aset_self], fun hcon => ?_⟩
        rw [hok] at hcon
        simp at hcon
    · rw [if_neg hok]
      refine ⟨by simp, fun hcon => absurd hcon hok, fun _ => by simp⟩

/-- Witness for C5: a stale E-KEY (end 3 ≤ timeslot 5) is re-fetched with the
extended exclude. -/
theorem claim_C5_covering_key_witness :
    handleCoveringKey ⟨[Component.gen 0], 1, 0⟩ (fun _ _ => true)
        ⟨[(0, [7])], [(5, ⟨2, [], []⟩)], []⟩
        ⟨[Component.gen 4], Exclude.empty, some 1, false, none⟩ 0
        ([Component.gen 4, Component.cEKEY] ++ [Component.iso 1, Component.iso 3]) [9] 5 true =
      (setRepeatAttempt ⟨[(0, [7])], [(5, ⟨2, [], []⟩)], []⟩ 5 [Component.gen 4] 0,
       [Effect.sendInterest
         ⟨[Component.gen 4], Exclude.empty.excludeBefore (Component.iso 1),
          some 1, false, none⟩ 0]) :=
  ((claim_C5_covering_key ⟨[Component.gen 0], 1, 0⟩ (fun _ _ => true)
    ⟨[(0, [7])], [(5, ⟨2, [], []⟩)], []⟩ ⟨2, [], []⟩
    ⟨[Component.gen 4], Exclude.empty, some 1, false, none⟩ 0
    [Component.gen 4, Component.cEKEY] 1 3 [9] 5 true (by decide)).1 (by decide)).1

theorem encryptContentKey_frame (cfg : ProducerCfg) (encOk : Buffer → Buffer → Bool)
    (s : ProducerState) (key : Buffer) (eName : NdnName) (t : Nat) (cb : Bool) :
    (encryptContentKey cfg encOk s key eName t cb).2.1.db = s.db ∧
    (encryptContentKey cfg encOk s key eName t cb).2.1.ekeyInfo = s.ekeyInfo ∧
    sendsOf (encryptContentKey cfg encOk s key eName t cb).2.2 = [] ∧
    (∀ t', t' ≠ t →
      alookup (encryptContentKey cfg encOk s key eName t cb).2.1.keyRequests t' =
        alookup s.keyRequests t') ∧
    ((s.keyRequests.map Prod.fst).Nodup →
      ((encryptContentKey cfg encOk s key eName t cb).2.1.keyRequests.map Prod.fst).Nodup) := by
  cases h : alookup s.keyRequests t with
  | none =>
    unfold encryptContentKey
    rw [h]
    exact ⟨rfl, rfl, rfl, fun _ _ => rfl, id⟩
  | some kr =>
    rw [encryptContentKey_spec cfg encOk s key eName t cb kr h]
    by_cases hok : encOk key (getContentKey s.db t)
    · rw [if_pos hok]
      by_cases hz : kr.interestCount - 1 = 0 ∧ cb = true
      · rw [if_pos hz]
        exact ⟨rfl, rfl, rfl, fun t' ht => alookup_aerase_ne _ _ _ ht,
          fun hnd => nodup_aerase _ _ hnd⟩
      · rw [if_neg hz]
        exact ⟨rfl, rfl, rfl, fun t' ht => alookup_aset_ne _ _ _ _ ht,
          fun hnd => nodup_aset _ _ _ hnd⟩
    · rw [if_neg hok]
      exact ⟨rfl, rfl, rfl, fun _ _ => rfl, id⟩

theorem setRepeatAttempt_frame (s : ProducerState) (t : Nat) (k : NdnName) (v : Nat) :
    (setRepeatAttempt s t k v).db = s.db ∧
    (setRepeatAttempt s t k v).ekeyInfo = s.ekeyInfo ∧
    (∀ t', t' ≠ t →
      alookup (setRepeatAttempt s t k v).keyRequests t' = alookup s.keyRequests t') ∧
    ((s.keyRequests.map Prod.fst).Nodup →
      ((setRepeatAttempt s t k v).keyRequests.map Prod.fst).Nodup) := by
  cases h : alookup s.keyRequests t with
  | none =>
    unfold setRepeatAttempt
    rw [h]
    exact ⟨rfl, rfl, fun _ _ => rfl, id⟩
  | some kr =>
    rw [setRepeatAttempt_spec s t k v kr h]
    exact ⟨rfl, rfl, fun t' ht => alookup_aset_ne _ _ _ _ ht, fun hnd => nodup_aset _ _ _ hnd⟩

theorem ckLoop_frame (cfg : ProducerCfg) (encOk : Buffer → Buffer → Bool) (t : Nat)
    (cb : Bool) (tr : Exclude) :
    ∀ (l : List (NdnName × KeyInfo)) (s : ProducerState),
      (ckLoop cfg encOk t cb tr l s).1.db = s.db ∧
      (ckLoop cfg encOk t cb tr l s).1.ekeyInfo = s.ekeyInfo ∧
      (∀ t', t' ≠ t →
        alookup (ckLoop cfg encOk t cb tr l s).1.keyRequests t' = alookup s.keyRequests t') ∧
      ((s.keyRequests.map Prod.fst).Nodup →
        ((ckLoop cfg encOk t cb tr l s).1.keyRequests.map Prod.fst).Nodup) ∧
      sendsOf (ckLoop cfg encOk t cb tr l s).2 =
        (l.filter (uncov t)).map
          (fun e => ((⟨e.1, tr, some 1, false, none⟩ : PInterest), 0)) := by
  intro l
  induction l with
  | nil =>
    intro s
    exact ⟨rfl, rfl, fun _ _ => rfl, id, rfl⟩
  | cons hd rest ih =>
    intro s
    obtain ⟨k, info⟩ := hd
    by_cases hu : t < info.beginTimeslot ∨ info.endTimeslot ≤ t
    · have hu' : uncov t (k, info) = true := by
        simp [uncov]
        exact hu
      have hck : ckLoop cfg encOk t cb tr ((k, info) :: rest) s =
          ((ckLoop cfg encOk t cb tr rest (setRepeatAttempt s t k 0)).1,
           Effect.sendInterest ⟨k, tr, some 1, false, none⟩ 0 ::
             (ckLoop cfg encOk t cb tr rest (setRepeatAttempt s t k 0)).2) := by
        simp only [ckLoop]
        rw [if_pos hu]
      obtain ⟨hdb0, hek0, hne0, hnd0⟩ := setRepeatAttempt_frame s t k 0
      obtain ⟨hdb, hek, hne, hnd, hsends⟩ := ih (setRepeatAttempt s t k 0)
      rw [hck]
      refine ⟨by rw [hdb, hdb0], by rw [hek, hek0], ?_, ?_, ?_⟩
      · intro t' ht
        rw [hne t' ht, hne0 t' ht]
      · intro hstart
        exact hnd (hnd0 hstart)
      · simp only [sendsOf, List.filterMap_cons]
        rw [List.filter_cons_of_pos hu']
        simp only [List.map_cons]
        rw [← hsends]
        rfl
    · have hu' : uncov t (k, info) = false := by
        simp [uncov]
        push_neg at hu
        omega
      have hck : ckLoop cfg encOk t cb tr ((k, info) :: rest) s =
          ((ckLoop cfg encOk t cb tr rest
              (encryptContentKey cfg encOk s info.keyBits
                (k ++ [Component.iso info.beginTimeslot, Component.iso info.endTimeslot])
                t cb).2.1).1,
           (encryptContentKey cfg encOk s info.keyBits
              (k ++ [Component.iso info.beginTimeslot, Component.iso info.endTimeslot])
              t cb).2.2 ++
             (ckLoop cfg encOk t cb tr rest
               (encryptContentKey cfg encOk s info.keyBits
                 (k ++ [Component.iso info.beginTimeslot, Component.iso info.endTimeslot])
                 t cb).2.1).2) := by
        simp only [ckLoop]
        rw [if_neg hu]
      obtain ⟨hdb0, hek0, hsend0, hne0, hnd0⟩ := encryptContentKey_frame cfg encOk s info.keyBits
        (k ++ [Component.iso info.beginTimeslot, Component.iso info.endTimeslot]) t cb
      obtain ⟨hdb, hek, hne, hnd, hsends⟩ := ih (encryptContentKey cfg encOk s info.keyBits
        (k ++ [Component.iso info.beginTimeslot, Component.iso info.endTimeslot]) t cb).2.1
      rw [hck]
      refine ⟨by rw [hdb, hdb0], by rw [hek, hek0], ?_, ?_, ?_⟩
      · intro t' ht
        rw [hne t' ht, hne0 t' ht]
      · intro hstart
        exact hnd (hnd0 hstart)
      · simp only [sendsOf, List.filterMap_append]
        rw [List.filter_cons_of_neg (by simp [hu'])]
        calc sendsOf (encryptContentKey cfg encOk s info.keyBits
              (k ++ [Component.iso info.beginTimeslot, Component.iso info.endTimeslot])
              t cb).2.2 ++
            sendsOf (ckLoop cfg encOk t cb tr rest
              (encryptContentKey cfg encOk s info.keyBits
                (k ++ [Component.iso info.beginTimeslot, Component.iso info.endTimeslot])
                t cb).2.1).2
            = [] ++ (rest.filter (uncov t)).map
                (fun e => ((⟨e.1, tr, some 1, false, none⟩ : PInterest), 0)) := by
              rw [hsend0, hsends]
          _ = (rest.filter (uncov t)).map
                (fun e => ((⟨e.1, tr, some 1, false, none⟩ : PInterest), 0)) := by
              simp

theorem dcount_le_length (encOk : Buffer → Buffer → Bool) (ct : Buffer) (t : Nat)
    (l : List (NdnName × KeyInfo)) : dcount encOk ct t l ≤ l.length :=
  List.length_filter_le _ l

theorem ckLoop_main (cfg : ProducerCfg) (encOk : Buffer → Buffer → Bool) (t : Nat)
    (cb : Bool) (tr : Exclude) :
    ∀ (l : List (NdnName × KeyInfo)) (s : ProducerState) (kr : KeyRequest),
      alookup s.keyRequests t = some kr →
      Int.ofNat l.length ≤ kr.interestCount →
      Effect.oob ∉ (ckLoop cfg encOk t cb tr l s).2 ∧
      encsOf (ckLoop cfg encOk t cb tr l s).2 =
        (l.filter (fun e => !uncov t e)).map
          (fun e => (getContentKey s.db t,
            e.1 ++ [Component.iso e.2.beginTimeslot, Component.iso e.2.endTimeslot],
            e.2.keyBits)) ∧
      (if cb = true ∧
          kr.interestCount = Int.ofNat (dcount encOk (getContentKey s.db t) t l) ∧
          0 < dcount encOk (getContentKey s.db t) t l then
        alookup (ckLoop cfg encOk t cb tr l s).1.keyRequests t = none ∧
        l.filter (uncov t) = [] ∧
        keysCbsOf (ckLoop cfg encOk t cb tr l s).2 =
          [Effect.keysCb t (kr.encryptedKeys ++ wrapsOf cfg encOk (getContentKey s.db t) t l)]
      else
        alookup (ckLoop cfg encOk t cb tr l s).1.keyRequests t =
          some ⟨kr.interestCount - Int.ofNat (dcount encOk (getContentKey s.db t) t l),
            updRA t l kr.repeatAttempts,
            kr.encryptedKeys ++ wrapsOf cfg encOk (getContentKey s.db t) t l⟩ ∧
        keysCbsOf (ckLoop cfg encOk t cb tr l s).2 = []) := by
  intro l
  induction l with
  | nil =>
    intro s kr h hlen
    refine ⟨by simp [ckLoop], by simp [ckLoop, encsOf], ?_⟩
    rw [if_neg (by simp [dcount])]
    refine ⟨?_, rfl⟩
    simp only [ckLoop]
    rw [h]
    simp [dcount, updRA, wrapsOf]
  | cons hd rest ih =>
    intro s kr h hlen
    obtain ⟨k, info⟩ := hd
    have hlen' : Int.ofNat rest.length ≤ kr.interestCount - 1 := by
      simp only [List.length_cons, Int.ofNat_eq_coe] at hlen ⊢
      omega
    by_cases hu : t < info.beginTimeslot ∨ info.endTimeslot ≤ t
    · -- uncovered node: repeatAttempts reset, interest sent, count untouched
      have hu' : uncov t (k, info) = true := by
        simp [uncov]
        exact hu
      have hck : ckLoop cfg encOk t cb tr ((k, info) :: rest) s =
          ((ckLoop cfg encOk t cb tr rest (setRepeatAttempt s t k 0)).1,
           Effect.sendInterest ⟨k, tr, some 1, false, none⟩ 0 ::
             (ckLoop cfg encOk t cb tr rest (setRepeatAttempt s t k 0)).2) := by
        simp only [ckLoop]
        rw [if_pos hu]
      have hs' : setRepeatAttempt s t k 0 =
          { s with keyRequests := aset s.keyRequests t ⟨kr.interestCount, aset kr.repeatAttempts k 0, kr.encryptedKeys⟩ } :=
        setRepeatAttempt_spec s t k 0 kr h
      have h' : alookup (setRepeatAttempt s t k 0).keyRequests t =
          some ⟨kr.interestCount, aset kr.repeatAttempts k 0, kr.encryptedKeys⟩ := by
        rw [hs']
        exact alookup_aset_self ..
      have hdb0 : (setRepeatAttempt s t k 0).db = s.db := (setRepeatAttempt_frame s t k 0).1
      have IH := ih (setRepeatAttempt s t k 0)
        ⟨kr.interestCount, aset kr.repeatAttempts k 0, kr.encryptedKeys⟩ h' (by
          dsimp only
          omega)
      rw [hdb0] at IH
      dsimp only at IH
      obtain ⟨ih_oob, ih_encs, ih_if⟩ := IH
      have hcond : ¬ (cb = true ∧
          kr.interestCount = Int.ofNat (dcount encOk (getContentKey s.db t) t rest) ∧
          0 < dcount encOk (getContentKey s.db t) t rest) := by
        rintro ⟨_, hc, _⟩
        have hd := dcount_le_length encOk (getContentKey s.db t) t rest
        simp only [List.length_cons, Int.ofNat_eq_coe] at hlen hc
        omega
      rw [if_neg hcond] at ih_if
      have hdc : dcount encOk (getContentKey s.db t) t ((k, info) :: rest) =
          dcount encOk (getContentKey s.db t) t rest := by
        simp [dcount, hu']
      have hwr : wrapsOf cfg encOk (getContentKey s.db t) t ((k, info) :: rest) =
          wrapsOf cfg encOk (getContentKey s.db t) t rest := by
        simp [wrapsOf, hu']
      have hra : updRA t ((k, info) :: rest) kr.repeatAttempts =
          updRA t rest (aset kr.repeatAttempts k 0) := by
        simp [updRA, hu']
      rw [hck]
      refine ⟨?_, ?_, ?_⟩
      · simp only [List.mem_cons]
        rintro (hc | hc)
        · exact Effect.noConfusion hc
        · exact ih_oob hc
      · simp only [encsOf, List.filterMap_cons]
        rw [List.filter_cons_of_neg (by simp [hu'])]
        exact ih_encs
      · rw [hdc, hwr, hra, if_neg hcond]
        refine ⟨ih_if.1, ?_⟩
        simp only [keysCbsOf, List.filter_cons]
        simpa [keysCbsOf] using ih_if.2
    · -- covered node: immediate wrap
      have hu' : uncov t (k, info) = false := by
        simp [uncov]
        push_neg at hu
        omega
      have hne : ¬ (t < info.beginTimeslot ∨ info.endTimeslot ≤ t) := hu
      have hck : ckLoop cfg encOk t cb tr ((k, info) :: rest) s =
          ((ckLoop cfg encOk t cb tr rest
              (encryptContentKey cfg encOk s info.keyBits
                (k ++ [Component.iso info.beginTimeslot, Component.iso info.endTimeslot])
                t cb).2.1).1,
           (encryptContentKey cfg encOk s info.keyBits
              (k ++ [Component.iso info.beginTimeslot, Component.iso info.endTimeslot])
              t cb).2.2 ++
             (ckLoop cfg encOk t cb tr rest
               (encryptContentKey cfg encOk s info.keyBits
                 (k ++ [Component.iso info.beginTimeslot, Component.iso info.endTimeslot])
                 t cb).2.1).2) := by
        simp only [ckLoop]
        rw [if_neg hne]
      by_cases hok : encOk info.keyBits (getContentKey s.db t)
      · by_cases hz : kr.interestCount - 1 = 0 ∧ cb = true
        · -- the wrap completes the KeyRequest: rest must be empty
          have hz1 := hz.1
          have hz2 := hz.2
          have hrest : rest = [] := by
            have hL : rest.length = 0 := by
              simp only [List.length_cons, Int.ofNat_eq_coe] at hlen
              omega
            exact List.length_eq_zero.mp hL
          subst hrest
          have hw : encryptContentKey cfg encOk s info.keyBits
              (k ++ [Component.iso info.beginTimeslot, Component.iso info.endTimeslot]) t cb =
              (true, { s with keyRequests := aerase s.keyRequests t },
               [Effect.encryptData (getContentKey s.db t)
                  (k ++ [Component.iso info.beginTimeslot, Component.iso info.endTimeslot])
                  info.keyBits,
                Effect.keysCb t (kr.encryptedKeys ++
                  [⟨contentKeyNameOf cfg t,
                    k ++ [Component.iso info.beginTimeslot, Component.iso info.endTimeslot],
                    info.keyBits, getContentKey s.db t⟩])]) := by
            rw [encryptContentKey_spec cfg encOk s info.keyBits _ t cb kr h,
              if_pos hok, if_pos hz]
          rw [hck, hw]
          have hdc : dcount encOk (getContentKey s.db t) t [(k, info)] = 1 := by
            simp [dcount, hu', hok]
          refine ⟨by simp [ckLoop], ?_, ?_⟩
          · simp [ckLoop, encsOf, hu']
          · rw [hdc, if_pos ⟨hz2, by simp only [Int.ofNat_eq_coe]; omega, by omega⟩]
            refine ⟨?_, by simp [hu'], ?_⟩
            · simp only [ckLoop]
              exact alookup_aerase_self ..
            · simp [ckLoop, keysCbsOf, wrapsOf, hu', hok]
        · -- wrap succeeds but does not complete yet
          have hw : encryptContentKey cfg encOk s info.keyBits
              (k ++ [Component.iso info.beginTimeslot, Component.iso info.endTimeslot]) t cb =
              (true, { s with keyRequests := aset s.keyRequests t ⟨kr.interestCount - 1, kr.repeatAttempts, kr.encryptedKeys ++ [⟨contentKeyNameOf cfg t, k ++ [Component.iso info.beginTimeslot, Component.iso info.endTimeslot], info.keyBits, getContentKey s.db t⟩]⟩ },
               [Effect.encryptData (getContentKey s.db t)
                  (k ++ [Component.iso info.beginTimeslot, Component.iso info.endTimeslot])
                  info.keyBits]) := by
            rw [encryptContentKey_spec cfg encOk s info.keyBits _ t cb kr h,
              if_pos hok, if_neg hz]
          have h' : alookup (encryptContentKey cfg encOk s info.keyBits
              (k ++ [Component.iso info.beginTimeslot, Component.iso info.endTimeslot])
              t cb).2.1.keyRequests t =
              some ⟨kr.interestCount - 1, kr.repeatAttempts, kr.encryptedKeys ++
                [⟨contentKeyNameOf cfg t,
                  k ++ [Component.iso info.beginTimeslot, Component.iso info.endTimeslot],
                  info.keyBits, getContentKey s.db t⟩]⟩ := by
            rw [hw]
            exact alookup_aset_self ..
          have IH := ih (encryptContentKey cfg encOk s info.keyBits
              (k ++ [Component.iso info.beginTimeslot, Component.iso info.endTimeslot])
              t cb).2.1
            ⟨kr.interestCount - 1, kr.repeatAttempts, kr.encryptedKeys ++
              [⟨contentKeyNameOf cfg t,
                k ++ [Component.iso info.beginTimeslot, Component.iso info.endTimeslot],
                info.keyBits, getContentKey s.db t⟩]⟩ h' (by
              dsimp only
              exact hlen')
          rw [hw] at IH
          dsimp only at IH
          obtain ⟨ih_oob, ih_encs, ih_if⟩ := IH
          have hdc : dcount encOk (getContentKey s.db t) t ((k, info) :: rest) =
              dcount encOk (getContentKey s.db t) t rest + 1 := by
            simp [dcount, hu', hok]
          have hwr : wrapsOf cfg encOk (getContentKey s.db t) t ((k, info) :: rest) =
              ⟨contentKeyNameOf cfg t,
                k ++ [Component.iso info.beginTimeslot, Component.iso info.endTimeslot],
                info.keyBits, getContentKey s.db t⟩ ::
                wrapsOf cfg encOk (getContentKey s.db t) t rest := by
            simp [wrapsOf, hu', hok]
          have hra : updRA t ((k, info) :: rest) kr.repeatAttempts =
              updRA t rest kr.repeatAttempts := by
            simp [updRA, hu']
          rw [hck, hw]
          dsimp only
          refine ⟨?_, ?_, ?_⟩
          · simp only [List.cons_append, List.nil_append, List.mem_cons]
            rintro (hc | hc)
            · exact Effect.noConfusion hc
            · exact ih_oob hc
          · simp only [List.cons_append, List.nil_append, encsOf, List.filterMap_cons]
            rw [List.filter_cons_of_pos (by simp [hu', hok])]
            simp only [List.map_cons]
            rw [← ih_encs]
            rfl
          · rw [hdc, hwr, hra]
            by_cases hcond : cb = true ∧
                kr.interestCount =
                  Int.ofNat (dcount encOk (getContentKey s.db t) t rest + 1) ∧
                0 < dcount encOk (getContentKey s.db t) t rest + 1
            · rw [if_pos hcond]
              have hcond' : cb = true ∧
                  kr.interestCount - 1 =
                    Int.ofNat (dcount encOk (getContentKey s.db t) t rest) ∧
                  0 < dcount encOk (getContentKey s.db t) t rest := by
                have hne1 : ¬ (kr.interestCount - 1 = 0) := fun hc => hz ⟨hc, hcond.1⟩
                refine ⟨hcond.1, ?_, ?_⟩
                · have := hcond.2.1
                  simp only [Int.ofNat_eq_coe] at this ⊢
                  omega
                · have := hcond.2.1
                  simp only [Int.ofNat_eq_coe] at this
                  omega
              rw [if_pos hcond'] at ih_if
              refine ⟨ih_if.1, by simp [hu', ih_if.2.1], ?_⟩
              have hk := ih_if.2.2
              simp only [List.cons_append, List.nil_append, keysCbsOf, List.filter_cons]
              simp only [keysCbsOf] at hk
              simp [hk, List.append_assoc]
            · rw [if_neg hcond]
              have hcond' : ¬ (cb = true ∧
                  kr.interestCount - 1 =
                    Int.ofNat (dcount encOk (getContentKey s.db t) t rest) ∧
                  0 < dcount encOk (getContentKey s.db t) t rest) := by
                rintro ⟨hc1, hc2, hc3⟩
                apply hcond
                refine ⟨hc1, ?_, by omega⟩
                simp only [Int.ofNat_eq_coe] at hc2 ⊢
                omega
              rw [if_neg hcond'] at ih_if
              constructor
              · rw [ih_if.1]
                have harith : kr.interestCount - 1 -
                    Int.ofNat (dcount encOk (getContentKey s.db t) t rest) =
                    kr.interestCount -
                      Int.ofNat (dcount encOk (getContentKey s.db t) t rest + 1) := by
                  simp only [Int.ofNat_eq_coe]
                  omega
                rw [harith, List.append_assoc]
                rfl
              · have hk := ih_if.2
                simp only [List.cons_append, List.nil_append, keysCbsOf, List.filter_cons]
                simp only [keysCbsOf] at hk
                simp [hk]
      · -- wrap throws: error reported, nothing decremented
        have hw : encryptContentKey cfg encOk s info.keyBits
            (k ++ [Component.iso info.beginTimeslot, Component.iso info.endTimeslot]) t cb =
            (false, s,
             [Effect.encryptData (getContentKey s.db t)
                (k ++ [Component.iso info.beginTimeslot, Component.iso info.endTimeslot])
                info.keyBits,
              Effect.errorCb ErrorCode.encryptionFailure]) := by
          rw [encryptContentKey_spec cfg encOk s info.keyBits _ t cb kr h, if_neg hok]
        have IH := ih s kr h (by
          simp only [List.length_cons, Int.ofNat_eq_coe] at hlen ⊢
          omega)
        obtain ⟨ih_oob, ih_encs, ih_if⟩ := IH
        rw [hck, hw]
        dsimp only
        have hokf : encOk info.keyBits (getContentKey s.db t) = false := by
          cases hb : encOk info.keyBits (getContentKey s.db t)
          · rfl
          · exact absurd hb hok
        have hdc : dcount encOk (getContentKey s.db t) t ((k, info) :: rest) =
            dcount encOk (getContentKey s.db t) t rest := by
          simp [dcount, hu', hokf]
        have hwr : wrapsOf cfg encOk (getContentKey s.db t) t ((k, info) :: rest) =
            wrapsOf cfg encOk (getContentKey s.db t) t rest := by
          simp [wrapsOf, hu', hokf]
        have hra : updRA t ((k, info) :: rest) kr.repeatAttempts =
            updRA t rest kr.repeatAttempts := by
          simp [updRA, hu']
        refine ⟨?_, ?_, ?_⟩
        · simp only [List.cons_append, List.nil_append, List.mem_cons]
          rintro (hc | hc | hc)
          · exact Effect.noConfusion hc
          · exact Effect.noConfusion hc
          · exact ih_oob hc
        · simp only [List.cons_append, List.nil_append, encsOf, List.filterMap_cons]
          rw [List.filter_cons_of_pos (by simp [hu'])]
          simp only [List.map_cons]
          rw [← ih_encs]
          rfl
        · rw [hdc, hwr, hra]
          by_cases hcond : cb = true ∧
              kr.interestCount = Int.ofNat (dcount encOk (getContentKey s.db t) t rest) ∧
              0 < dcount encOk (getContentKey s.db t) t rest
          · rw [if_pos hcond]
            rw [if_pos hcond] at ih_if
            refine ⟨ih_if.1, by simp [hu', ih_if.2.1], ?_⟩
            have hk := ih_if.2.2
            simp only [List.cons_append, List.nil_append, keysCbsOf, List.filter_cons]
            simp only [keysCbsOf] at hk
            simp [hk]
          · rw [if_neg hcond]
            rw [if_neg hcond] at ih_if
            refine ⟨ih_if.1, ?_⟩
            have hk := ih_if.2
            simp only [List.cons_append, List.nil_append, keysCbsOf, List.filter_cons]
            simp only [keysCbsOf] at hk
            simp [hk]

theorem filter_length_lt {α : Type} (p : α → Bool) (l : List α) (x : α)
    (hx : x ∈ l) (hpx : p x = false) : (l.filter p).length < l.length := by
  induction l with
  | nil => simp at hx
  | cons a rest ih =>
    rcases List.mem_cons.mp hx with hh | hh
    · subst hh
      rw [List.filter_cons_of_neg (by simp [hpx])]
      have := List.length_filter_le p rest
      simp only [List.length_cons]
      omega
    · by_cases hpa : p a
      · rw [List.filter_cons_of_pos hpa]
        simp only [List.length_cons]
        exact Nat.succ_lt_succ (ih hh)
      · rw [List.filter_cons_of_neg hpa]
        simp only [List.length_cons]
        exact Nat.lt_succ_of_lt (ih hh)

theorem filter_key_none {β : Type} (l : List (NdnName × β)) (k : NdnName)
    (p : NdnName × β → Bool) (h : k ∉ l.map Prod.fst) :
    l.filter (fun e => p e && decide (e.1 = k)) = [] := by
  rw [List.filter_eq_nil_iff]
  intro a ha
  have : a.1 ≠ k := by
    intro hc
    exact h (hc ▸ List.mem_map_of_mem Prod.fst ha)
  simp [this]

theorem count_key_filter {β : Type} (l : List (NdnName × β)) (k : NdnName)
    (p : NdnName × β → Bool) (info : β) (hnd : (l.map Prod.fst).Nodup)
    (hmem : (k, info) ∈ l) :
    (l.filter (fun e => p e && decide (e.1 = k))).length =
      if p (k, info) then 1 else 0 := by
  induction l with
  | nil => simp at hmem
  | cons hd rest ih =>
    obtain ⟨a, b⟩ := hd
    rw [List.map_cons, List.nodup_cons] at hnd
    rcases List.mem_cons.mp hmem with hh | hh
    · injection hh with h1 h2
      subst h1
      subst h2
      have hrest : rest.filter (fun e => p e && decide (e.1 = k)) = [] :=
        filter_key_none rest k p hnd.1
      by_cases hpa : p (k, info)
      · rw [List.filter_cons_of_pos (by simp [hpa]), if_pos hpa, hrest]
        rfl
      · rw [List.filter_cons_of_neg (by simp [hpa]), if_neg hpa, hrest]
        rfl
    · have hak : ¬ a = k := by
        intro hc
        subst hc
        exact hnd.1 (by simpa using List.mem_map_of_mem Prod.fst hh)
      rw [List.filter_cons_of_neg (by simp [hak])]
      exact ih hnd.2 hh

theorem mem_of_sendsOf (effs : List Effect) (i : PInterest) (d : Nat)
    (h : (i, d) ∈ sendsOf effs) : Effect.sendInterest i d ∈ effs := by
  rw [sendsOf, List.mem_filterMap] at h
  obtain ⟨eff, heff, hfe⟩ := h
  cases eff <;> simp at hfe
  obtain ⟨h1, h2⟩ := hfe
  subst h1
  subst h2
  exact heff

theorem mem_of_encsOf (effs : List Effect) (p : Buffer) (n : NdnName) (kk : Buffer)
    (h : (p, n, kk) ∈ encsOf effs) : Effect.encryptData p n kk ∈ effs := by
  rw [encsOf, List.mem_filterMap] at h
  obtain ⟨eff, heff, hfe⟩ := h
  cases eff <;> simp at hfe
  obtain ⟨h1, h2, h3⟩ := hfe
  subst h1
  subst h2
  subst h3
  exact heff

theorem updRA_alookup_notmem (t : Nat) (l : List (NdnName × KeyInfo)) (k : NdnName) :
    ∀ ra, k ∉ l.map Prod.fst → alookup (updRA t l ra) k = alookup ra k := by
  induction l with
  | nil => intro ra _; rfl
  | cons hd rest ih =>
    intro ra hk
    simp only [List.map_cons, List.mem_cons, not_or] at hk
    have hstep : updRA t (hd :: rest) ra =
        updRA t rest (if uncov t hd then aset ra hd.1 0 else ra) := rfl
    rw [hstep, ih _ (by simpa using hk.2)]
    by_cases hu : uncov t hd
    · rw [if_pos hu]
      exact alookup_aset_ne _ _ _ _ hk.1
    · rw [if_neg hu]

theorem updRA_alookup (t : Nat) (l : List (NdnName × KeyInfo)) (k : NdnName)
    (info : KeyInfo) (hnd : (l.map Prod.fst).Nodup) (hmem : (k, info) ∈ l)
    (hu : uncov t (k, info) = true) :
    ∀ ra, alookup (updRA t l ra) k = some 0 := by
  induction l with
  | nil => simp at hmem
  | cons hd rest ih =>
    intro ra
    obtain ⟨a, b⟩ := hd
    rw [List.map_cons, List.nodup_cons] at hnd
    rcases List.mem_cons.mp hmem with hh | hh
    · injection hh.symm with h1 h2
      subst h1
      subst h2
      have hstep : updRA t ((a, b) :: rest) ra =
          updRA t rest (aset ra a 0) := by
        show updRA t rest (if uncov t (a, b) then aset ra a 0 else ra) = _
        rw [if_pos hu]
      rw [hstep, updRA_alookup_notmem t rest a _ hnd.1, alookup_aset_self]
    · have hak : ¬ a = k := by
        intro hc
        subst hc
        exact hnd.1 (by simpa using List.mem_map_of_mem Prod.fst hh)
      have hstep : updRA t ((a, b) :: rest) ra =
          updRA t rest (if uncov t (a, b) then aset ra a 0 else ra) := rfl
      rw [hstep]
      exact ih hnd.2 hh _

theorem count_name_aux (t : Nat) (tr : Exclude) (k : NdnName) :
    ∀ l : List (NdnName × KeyInfo),
      (((l.filter (uncov t)).map
          (fun e => ((⟨e.1, tr, some 1, false, none⟩ : PInterest), (0 : Nat)))).filter
        (fun pr => decide (pr.1.name = k))).length =
      (l.filter (fun e => uncov t e && decide (e.1 = k))).length := by
  intro l
  induction l with
  | nil => rfl
  | cons hd rest ih =>
    by_cases hu : uncov t hd
    · by_cases hk : hd.1 = k
      · simp only [List.filter_cons, hu, if_true, List.map_cons, hk]
        simp [ih]
      · simp only [List.filter_cons, hu, if_true, List.map_cons]
        simp [hk, ih]
    · simp only [List.filter_cons, hu]
      simp [hu, ih]

theorem getContentKey_add (db : List (Nat × Buffer)) (t : Nat) (fr : Buffer) :
    getContentKey (addContentKey db t fr) t = fr := by
  unfold getContentKey addContentKey
  rw [alookup_aset_self]
  rfl

/-- The shape of `createContentKey` when the content key does not exist yet:
the DB gains the fresh key, the KeyRequest is created, and the loop runs over
`m_ekeyInfo` with the exclude-after-timeslot range. -/
theorem createContentKey_fresh (cfg : ProducerCfg) (encOk : Buffer → Buffer → Bool)
    (s : ProducerState) (fresh : Buffer) (t : Nat) (cb : Bool)
    (hhas : hasContentKey s.db t = false)
    (hkr : alookup s.keyRequests t = none) :
    createContentKey cfg encOk s fresh t cb =
      (contentKeyNameOf cfg t,
       ckLoop cfg encOk t cb (Exclude.empty.excludeAfter (Component.iso t)) s.ekeyInfo
         ⟨addContentKey s.db t fresh,
          (t, KeyRequest.init s.ekeyInfo.length) :: s.keyRequests,
          s.ekeyInfo⟩) := by
  unfold createContentKey
  rw [if_neg (by simp [hhas])]
  dsimp only
  rw [hkr]
  rfl

/-- C4: in `createContentKey` on a fresh timeslot, for every `m_ekeyInfo` entry
`(k, info)`: an E-KEY interest for `k` — carrying the exclude-after of the
timeslot's ISO component and ChildSelector 1 — is issued exactly when the
timeslot is not covered (`t < begin ∨ end ≤ t`), and then `repeatAttempts[k]`
is 0 in the stored KeyRequest; when covered, zero interests are issued for `k`
and the fresh C-KEY is wrapped immediately under the cached `keyBits` with the
synthesized name `k/iso(begin)/iso(end)`. -/
theorem claim_C4_coverage_dispatch (cfg : ProducerCfg) (encOk : Buffer → Buffer → Bool)
    (s : ProducerState) (fresh : Buffer) (t : Nat) (cb : Bool) (k : NdnName)
    (info : KeyInfo)
    (hhas : hasContentKey s.db t = false)
    (hnd : (s.ekeyInfo.map Prod.fst).Nodup)
    (hmem : (k, info) ∈ s.ekeyInfo)
    (hkr : alookup s.keyRequests t = none) :
    ((t < info.beginTimeslot ∨ info.endTimeslot ≤ t) →
      countSendsTo (createContentKey cfg encOk s fresh t cb).2.2 k = 1 ∧
      Effect.sendInterest
          ⟨k, Exclude.empty.excludeAfter (Component.iso t), some 1, false, none⟩ 0 ∈
        (createContentKey cfg encOk s fresh t cb).2.2 ∧
      (∃ kr', alookup (createContentKey cfg encOk s fresh t cb).2.1.keyRequests t = some kr' ∧
        alookup kr'.repeatAttempts k = some 0)) ∧
    (¬ (t < info.beginTimeslot ∨ info.endTimeslot ≤ t) →
      countSendsTo (createContentKey cfg encOk s fresh t cb).2.2 k = 0 ∧
      Effect.encryptData fresh
          (k ++ [Component.iso info.beginTimeslot, Component.iso info.endTimeslot])
          info.keyBits ∈
        (createContentKey cfg encOk s fresh t cb).2.2) := by
  rw [createContentKey_fresh cfg encOk s fresh t cb hhas hkr]
  set s2 : ProducerState :=
    ⟨addContentKey s.db t fresh,
     (t, KeyRequest.init s.ekeyInfo.length) :: s.keyRequests, s.ekeyInfo⟩ with hs2
  set tr : Exclude := Exclude.empty.excludeAfter (Component.iso t) with htr
  have hkr2 : alookup s2.keyRequests t = some (KeyRequest.init s.ekeyInfo.length) := by
    rw [hs2]
    simp [alookup]
  have hct : getContentKey s2.db t = fresh := by
    rw [hs2]
    exact getContentKey_add s.db t fresh
  have hbound : Int.ofNat s.ekeyInfo.length ≤
      (KeyRequest.init s.ekeyInfo.length).interestCount := by
    rw [KeyRequest.init]
  have hek2 : s2.ekeyInfo = s.ekeyInfo := rfl
  obtain ⟨_, _, _, _, hsends⟩ := ckLoop_frame cfg encOk t cb tr s2.ekeyInfo s2
  obtain ⟨hoob, hencs, hif⟩ :=
    ckLoop_main cfg encOk t cb tr s2.ekeyInfo s2 (KeyRequest.init s.ekeyInfo.length)
      hkr2 (by rw [hek2]; exact hbound)
  rw [hek2] at hsends hencs hif
  rw [hct] at hencs hif
  constructor
  · intro hu
    have hu' : uncov t (k, info) = true := by
      simp [uncov]
      exact hu
    refine ⟨?_, ?_, ?_⟩
    · rw [countSendsTo, hsends, count_name_aux,
        count_key_filter s.ekeyInfo k (uncov t) info hnd hmem, if_pos hu']
    · apply mem_of_sendsOf
      rw [hsends]
      exact List.mem_map_of_mem _ (List.mem_filter.mpr ⟨hmem, hu'⟩)
    · have hcond : ¬ (cb = true ∧
          (KeyRequest.init s.ekeyInfo.length).interestCount =
            Int.ofNat (dcount encOk fresh t s.ekeyInfo) ∧
          0 < dcount encOk fresh t s.ekeyInfo) := by
        rintro ⟨_, hc, _⟩
        have hlt : dcount encOk fresh t s.ekeyInfo < s.ekeyInfo.length := by
          rw [dcount]
          exact filter_length_lt _ s.ekeyInfo (k, info) hmem (by simp [hu'])
        rw [KeyRequest.init] at hc
        simp only [Int.ofNat_eq_coe] at hc
        omega
      rw [if_neg hcond] at hif
      refine ⟨_, hif.1, ?_⟩
      dsimp only
      rw [KeyRequest.init]
      exact updRA_alookup t s.ekeyInfo k info hnd hmem hu' []
  · intro hu
    have hu' : uncov t (k, info) = false := by
      simp [uncov]
      push_neg at hu
      omega
    refine ⟨?_, ?_⟩
    · rw [countSendsTo, hsends, count_name_aux,
        count_key_filter s.ekeyInfo k (uncov t) info hnd hmem, if_neg (by simp [hu'])]
    · apply mem_of_encsOf
      rw [hencs]
      exact List.mem_map_of_mem _ (List.mem_filter.mpr ⟨hmem, by simp [hu']⟩)

/-- Witness for C4: two namespace nodes, one covering the timeslot and one
not; the uncovered node gets exactly one interest with the exclude-after and a
zeroed retrial count, the covered one gets zero interests and an immediate
wrap under its cached key bits. -/
theorem claim_C4_coverage_dispatch_witness :
    countSendsTo (createContentKey ⟨[Component.gen 0], 1, 0⟩ (fun _ _ => true)
        ⟨[], [], [([Component.gen 1], ⟨0, 0, [3]⟩), ([Component.gen 2], ⟨4, 9, [4]⟩)]⟩
        [8] 5 true).2.2 [Component.gen 1] = 1 ∧
    countSendsTo (createContentKey ⟨[Component.gen 0], 1, 0⟩ (fun _ _ => true)
        ⟨[], [], [([Component.gen 1], ⟨0, 0, [3]⟩), ([Component.gen 2], ⟨4, 9, [4]⟩)]⟩
        [8] 5 true).2.2 [Component.gen 2] = 0 ∧
    Effect.encryptData [8] ([Component.gen 2] ++ [Component.iso 4, Component.iso 9]) [4] ∈
      (createContentKey ⟨[Component.gen 0], 1, 0⟩ (fun _ _ => true)
        ⟨[], [], [([Component.gen 1], ⟨0, 0, [3]⟩), ([Component.gen 2], ⟨4, 9, [4]⟩)]⟩
        [8] 5 true).2.2 := by
  refine ⟨?_, ?_, ?_⟩
  · exact ((claim_C4_coverage_dispatch ⟨[Component.gen 0], 1, 0⟩ (fun _ _ => true)
      ⟨[], [], [([Component.gen 1], ⟨0, 0, [3]⟩), ([Component.gen 2], ⟨4, 9, [4]⟩)]⟩
      [8] 5 true [Component.gen 1] ⟨0, 0, [3]⟩ (by decide) (by decide) (by decide)
      (by decide)).1 (by decide)).1
  · exact ((claim_C4_coverage_dispatch ⟨[Component.gen 0], 1, 0⟩ (fun _ _ => true)
      ⟨[], [], [([Component.gen 1], ⟨0, 0, [3]⟩), ([Component.gen 2], ⟨4, 9, [4]⟩)]⟩
      [8] 5 true [Component.gen 2] ⟨4, 9, [4]⟩ (by decide) (by decide) (by decide)
      (by decide)).2 (by decide)).1
  · exact ((claim_C4_coverage_dispatch ⟨[Component.gen 0], 1, 0⟩ (fun _ _ => true)
      ⟨[], [], [([Component.gen 1], ⟨0, 0, [3]⟩), ([Component.gen 2], ⟨4, 9, [4]⟩)]⟩
      [8] 5 true [Component.gen 2] ⟨4, 9, [4]⟩ (by decide) (by decide) (by decide)
      (by decide)).2 (by decide)).2

theorem mem_removeIdx {α : Type} (l : List α) (idx : Nat) (q : α)
    (h : q ∈ removeIdx l idx) : q ∈ l := by
  induction l generalizing idx with
  | nil =>
    simp [removeIdx] at h
  | cons hd rest ih =>
    cases idx with
    | zero => exact List.mem_cons_of_mem _ h
    | succ n =>
      rcases List.mem_cons.mp h with hh | hh
      · exact hh ▸ List.mem_cons_self _ _
      · exact List.mem_cons_of_mem _ (ih n hh)

theorem pendCount_cons (p : PendInterest) (l : List PendInterest) (t : Nat) :
    pendCount (p :: l) t = (if p.timeslot = t then 1 else 0) + pendCount l t := by
  by_cases h : p.timeslot = t
  · simp [pendCount, List.filter_cons, h]
    omega
  · simp [pendCount, List.filter_cons, h]

theorem pendCount_append (a b : List PendInterest) (t : Nat) :
    pendCount (a ++ b) t = pendCount a t + pendCount b t := by
  simp [pendCount, List.filter_append]

theorem pendCount_removeIdx (l : List PendInterest) (idx : Nat) (p : PendInterest)
    (t : Nat) (h : l.get? idx = some p) :
    pendCount l t =
      pendCount (removeIdx l idx) t + (if p.timeslot = t then 1 else 0) := by
  induction l generalizing idx with
  | nil => simp at h
  | cons hd rest ih =>
    cases idx with
    | zero =>
      simp only [List.get?] at h
      injection h with h
      subst h
      rw [pendCount_cons]
      show _ = pendCount rest t + _
      omega
    | succ n =>
      simp only [List.get?] at h
      have hrm : removeIdx (hd :: rest) (n + 1) = hd :: removeIdx rest n := rfl
      rw [hrm, pendCount_cons, pendCount_cons, ih n h]
      omega

theorem pendCount_zero_no_mem (l : List PendInterest) (t : Nat)
    (h : pendCount l t = 0) (p : PendInterest) (hp : p ∈ l) : p.timeslot ≠ t := by
  intro hc
  have : p ∈ l.filter (fun q => decide (q.timeslot = t)) :=
    List.mem_filter.mpr ⟨hp, by simp [hc]⟩
  rw [pendCount] at h
  rw [List.length_eq_zero] at h
  rw [h] at this
  simp at this

theorem toPending_eq (t : Nat) (cb : Bool) (effs : List Effect) :
    toPending t cb effs =
      (sendsOf effs).map (fun pr => (⟨pr.1, pr.2, t, cb⟩ : PendInterest)) := by
  induction effs with
  | nil => rfl
  | cons e rest ih =>
    cases e <;> simp [toPending, sendsOf, List.filterMap_cons] at ih ⊢ <;> exact ih

theorem pendCount_map_mk (τ : Nat) (cb : Bool) (t : Nat) :
    ∀ l : List (PInterest × Nat),
      pendCount (l.map (fun pr => (⟨pr.1, pr.2, τ, cb⟩ : PendInterest))) t =
        if τ = t then l.length else 0 := by
  intro l
  induction l with
  | nil => simp [pendCount]
  | cons hd rest ih =>
    simp only [List.map_cons]
    rw [pendCount_cons, ih]
    by_cases h : τ = t
    · simp [h]
      omega
    · simp [h]

theorem pendCount_toPending (τ : Nat) (cb : Bool) (effs : List Effect) (t : Nat) :
    pendCount (toPending τ cb effs) t = if τ = t then (sendsOf effs).length else 0 := by
  rw [toPending_eq, pendCount_map_mk]

theorem toPending_timeslot (τ : Nat) (cb : Bool) (effs : List Effect)
    (p : PendInterest) (h : p ∈ toPending τ cb effs) : p.timeslot = τ := by
  rw [toPending_eq] at h
  rcases List.mem_map.mp h with ⟨pr, _, hpr⟩
  rw [← hpr]

theorem isKeysCbFor_mem_keysCbsOf (effs : List Effect) (e : Effect) (t : Nat)
    (he : e ∈ effs) (h : isKeysCbFor t e = true) : e ∈ keysCbsOf effs := by
  rw [keysCbsOf, List.mem_filter]
  refine ⟨he, ?_⟩
  cases e <;> simp [isKeysCbFor] at h ⊢

theorem no_keysCbFor_of_nil (effs : List Effect) (h : keysCbsOf effs = [])
    (t : Nat) (e : Effect) (he : e ∈ effs) : isKeysCbFor t e = false := by
  cases hv : isKeysCbFor t e
  · rfl
  · have := isKeysCbFor_mem_keysCbsOf effs e t he hv
    rw [h] at this
    simp at this

theorem keysCbFor_of_single (effs : List Effect) (τ : Nat) (ks : List DataPacket)
    (h : keysCbsOf effs = [Effect.keysCb τ ks]) (t : Nat) (e : Effect)
    (he : e ∈ effs) (hf : isKeysCbFor t e = true) : t = τ := by
  have hmem := isKeysCbFor_mem_keysCbsOf effs e t he hf
  rw [h] at hmem
  rcases List.mem_singleton.mp hmem with he'
  subst he'
  simp only [isKeysCbFor, beq_iff_eq] at hf
  exact hf.symm

theorem updateKeyRequest_acct (s : ProducerState) (τ : Nat) (cb : Bool) :
    (updateKeyRequest s τ cb).1.db = s.db ∧
    (∀ t'', t'' ≠ τ →
      alookup (updateKeyRequest s τ cb).1.keyRequests t'' = alookup s.keyRequests t'') ∧
    ((s.keyRequests.map Prod.fst).Nodup →
      ((updateKeyRequest s τ cb).1.keyRequests.map Prod.fst).Nodup) ∧
    ((alookup s.keyRequests τ).isSome = true →
      Effect.oob ∉ (updateKeyRequest s τ cb).2) ∧
    HandlerAcct s (updateKeyRequest s τ cb).1 τ (updateKeyRequest s τ cb).2 := by
  cases h : alookup s.keyRequests τ with
  | none =>
    unfold updateKeyRequest
    rw [h]
    exact ⟨rfl, fun _ _ => rfl, id, by simp, Or.inl ⟨h, h, by simp [sendsOf], rfl⟩⟩
  | some kr =>
    rw [updateKeyRequest_spec s τ cb kr h]
    by_cases hz : kr.interestCount - 1 = 0 ∧ cb = true
    · rw [if_pos hz]
      refine ⟨rfl, fun t'' ht => alookup_aerase_ne _ _ _ ht,
        fun hh => nodup_aerase _ _ hh, fun _ => by simp, ?_⟩
      exact Or.inr (Or.inr (Or.inr ⟨kr, h, hz.1, alookup_aerase_self .., rfl,
        ⟨kr.encryptedKeys, rfl⟩⟩))
    · rw [if_neg hz]
      refine ⟨rfl, fun t'' ht => alookup_aset_ne _ _ _ _ ht,
        fun hh => nodup_aset _ _ _ hh, fun _ => by simp, ?_⟩
      exact Or.inr (Or.inr (Or.inl ⟨kr, _, h, alookup_aset_self .., rfl, rfl, rfl⟩))

theorem handlerAcct_shift (s0 s s' : ProducerState) (τ : Nat) (effs : List Effect)
    (kr kr0 : KeyRequest)
    (h : alookup s.keyRequests τ = some kr)
    (h0 : alookup s0.keyRequests τ = some kr0)
    (hc : kr0.interestCount = kr.interestCount)
    (ha : HandlerAcct s0 s' τ effs) : HandlerAcct s s' τ effs := by
  rcases ha with ⟨hn, _⟩ | ⟨a, a', ha1, ha2, ha3, ha4, ha5⟩ |
    ⟨a, a', ha1, ha2, ha3, ha4, ha5⟩ | ⟨a, ha1, ha2, ha3, ha4, ha5⟩
  · rw [h0] at hn
    exact absurd hn (by simp)
  · rw [h0] at ha1
    injection ha1 with ha1
    subst ha1
    exact Or.inr (Or.inl ⟨kr, a', h, ha2, by rw [ha3, hc], ha4, ha5⟩)
  · rw [h0] at ha1
    injection ha1 with ha1
    subst ha1
    exact Or.inr (Or.inr (Or.inl ⟨kr, a', h, ha2, by rw [ha3, hc], ha4, ha5⟩))
  · rw [h0] at ha1
    injection ha1 with ha1
    subst ha1
    exact Or.inr (Or.inr (Or.inr ⟨kr, h, by rw [← hc]; exact ha2, ha3, ha4, ha5⟩))

theorem handleNackP_acct (cfg : ProducerCfg) (s : ProducerState) (i : PInterest)
    (dIdx : Nat) (τ : Nat) (cb : Bool) :
    (handleNackP cfg s i dIdx τ cb).1.db = s.db ∧
    (∀ t'', t'' ≠ τ →
      alookup (handleNackP cfg s i dIdx τ cb).1.keyRequests t'' = alookup s.keyRequests t'') ∧
    ((s.keyRequests.map Prod.fst).Nodup →
      ((handleNackP cfg s i dIdx τ cb).1.keyRequests.map Prod.fst).Nodup) ∧
    ((alookup s.keyRequests τ).isSome = true →
      Effect.oob ∉ (handleNackP cfg s i dIdx τ cb).2) ∧
    HandlerAcct s (handleNackP cfg s i dIdx τ cb).1 τ (handleNackP cfg s i dIdx τ cb).2 := by
  have hreissue : ∀ i' d',
      (s, [Effect.sendInterest i' d']).1.db = s.db ∧
      (∀ t'', t'' ≠ τ →
        alookup (s, [Effect.sendInterest i' d']).1.keyRequests t'' = alookup s.keyRequests t'') ∧
      ((s.keyRequests.map Prod.fst).Nodup →
        ((s, [Effect.sendInterest i' d']).1.keyRequests.map Prod.fst).Nodup) ∧
      ((alookup s.keyRequests τ).isSome = true →
        Effect.oob ∉ (s, [Effect.sendInterest i' d']).2) ∧
      HandlerAcct s (s, [Effect.sendInterest i' d']).1 τ (s, [Effect.sendInterest i' d']).2 := by
    intro i' d'
    refine ⟨rfl, fun _ _ => rfl, id, fun _ => by simp, ?_⟩
    cases h : alookup s.keyRequests τ with
    | none => exact Or.inl ⟨h, h, by simp [sendsOf], rfl⟩
    | some kr => exact Or.inr (Or.inl ⟨kr, kr, h, h, rfl, by simp [sendsOf], rfl⟩)
  unfold handleNackP
  by_cases hl : 0 < cfg.linkSize
  · rw [if_pos hl]
    cases hsel : i.selDelegation with
    | none => exact hreissue _ _
    | some j =>
      by_cases hd : dIdx + 1 < cfg.linkSize
      · rw [if_pos hd]
        exact hreissue _ _
      · rw [if_neg hd]
        exact updateKeyRequest_acct s τ cb
  · rw [if_neg hl]
    exact updateKeyRequest_acct s τ cb

theorem handleTimeoutP_acct (cfg : ProducerCfg)
    (s : ProducerState) (i : PInterest) (dIdx : Nat) (τ : Nat) (cb : Bool) :
    (handleTimeoutP cfg s i dIdx τ cb).1.db = s.db ∧
    (∀ t'', t'' ≠ τ →
      alookup (handleTimeoutP cfg s i dIdx τ cb).1.keyRequests t'' = alookup s.keyRequests t'') ∧
    ((s.keyRequests.map Prod.fst).Nodup →
      ((handleTimeoutP cfg s i dIdx τ cb).1.keyRequests.map Prod.fst).Nodup) ∧
    ((alookup s.keyRequests τ).isSome = true →
      Effect.oob ∉ (handleTimeoutP cfg s i dIdx τ cb).2) ∧
    HandlerAcct s (handleTimeoutP cfg s i dIdx τ cb).1 τ (handleTimeoutP cfg s i dIdx τ cb).2 := by
  cases h : alookup s.keyRequests τ with
  | none =>
    unfold handleTimeoutP
    rw [h]
    exact ⟨rfl, fun _ _ => rfl, id, by simp [h], Or.inl ⟨h, h, by simp [sendsOf], rfl⟩⟩
  | some kr =>
    have hunf : handleTimeoutP cfg s i dIdx τ cb =
        (let attempts := (alookup kr.repeatAttempts i.name).getD 0
         let s0 := setRepeatAttempt s τ i.name attempts
         if attempts < cfg.maxRepeatAttempts then
           (setRepeatAttempt s0 τ i.name (attempts + 1), [Effect.sendInterest i dIdx])
         else
           handleNackP cfg s0 i dIdx τ cb) := by
      unfold handleTimeoutP
      rw [h]
    rw [hunf]
    dsimp only
    have hs0 : setRepeatAttempt s τ i.name ((alookup kr.repeatAttempts i.name).getD 0) =
        { s with keyRequests := aset s.keyRequests τ ⟨kr.interestCount, aset kr.repeatAttempts i.name ((alookup kr.repeatAttempts i.name).getD 0), kr.encryptedKeys⟩ } :=
      setRepeatAttempt_spec s τ i.name _ kr h
    by_cases hatt : (alookup kr.repeatAttempts i.name).getD 0 < cfg.maxRepeatAttempts
    · rw [if_pos hatt]
      have hs0' : alookup (setRepeatAttempt s τ i.name
          ((alookup kr.repeatAttempts i.name).getD 0)).keyRequests τ =
          some ⟨kr.interestCount, aset kr.repeatAttempts i.name
            ((alookup kr.repeatAttempts i.name).getD 0), kr.encryptedKeys⟩ := by
        rw [hs0]
        exact alookup_aset_self ..
      have hs1 : setRepeatAttempt (setRepeatAttempt s τ i.name
          ((alookup kr.repeatAttempts i.name).getD 0)) τ i.name
          ((alookup kr.repeatAttempts i.name).getD 0 + 1) =
          { setRepeatAttempt s τ i.name ((alookup kr.repeatAttempts i.name).getD 0) with
            keyRequests := aset (setRepeatAttempt s τ i.name
              ((alookup kr.repeatAttempts i.name).getD 0)).keyRequests τ ⟨kr.interestCount, aset (aset kr.repeatAttempts i.name ((alookup kr.repeatAttempts i.name).getD 0)) i.name ((alookup kr.repeatAttempts i.name).getD 0 + 1), kr.encryptedKeys⟩ } :=
        setRepeatAttempt_spec _ τ i.name _ _ hs0'
      rw [hs1, hs0]
      dsimp only
      rw [aset_aset]
      refine ⟨rfl, fun t'' ht => alookup_aset_ne _ _ _ _ ht,
        fun hh => nodup_aset _ _ _ hh, fun _ => by simp, ?_⟩
      exact Or.inr (Or.inl ⟨kr, _, h, alookup_aset_self .., rfl, by simp [sendsOf], rfl⟩)
    · rw [if_neg hatt]
      have hs0' : alookup (setRepeatAttempt s τ i.name
          ((alookup kr.repeatAttempts i.name).getD 0)).keyRequests τ =
          some ⟨kr.interestCount, aset kr.repeatAttempts i.name
            ((alookup kr.repeatAttempts i.name).getD 0), kr.encryptedKeys⟩ := by
        rw [hs0]
        exact alookup_aset_self ..
      obtain ⟨hdb, hne, hnd, hoob, hacct⟩ := handleNackP_acct cfg
        (setRepeatAttempt s τ i.name ((alookup kr.repeatAttempts i.name).getD 0)) i dIdx τ cb
      refine ⟨by rw [hdb, hs0], ?_, ?_, ?_, ?_⟩
      · intro t'' ht
        rw [hne t'' ht, hs0]
        exact alookup_aset_ne _ _ _ _ ht
      · intro hh
        apply hnd
        rw [hs0]
        exact nodup_aset _ _ _ hh
      · intro _
        apply hoob
        rw [hs0']
        rfl
      · exact handlerAcct_shift _ s _ τ _ kr _ h hs0' rfl hacct

theorem handleCoveringKey_acct (cfg : ProducerCfg) (encOk : Buffer → Buffer → Bool)
    (s : ProducerState) (i : PInterest) (dIdx : Nat) (keyName : NdnName)
    (payload : Buffer) (τ : Nat) (cb : Bool) :
    (handleCoveringKey cfg encOk s i dIdx keyName payload τ cb).1.db = s.db ∧
    (∀ t'', t'' ≠ τ →
      alookup (handleCoveringKey cfg encOk s i dIdx keyName payload τ cb).1.keyRequests t'' =
        alookup s.keyRequests t'') ∧
    ((s.keyRequests.map Prod.fst).Nodup →
      ((handleCoveringKey cfg encOk s i dIdx keyName payload τ cb).1.keyRequests.map
        Prod.fst).Nodup) ∧
    ((alookup s.keyRequests τ).isSome = true →
      Effect.oob ∉ (handleCoveringKey cfg encOk s i dIdx keyName payload τ cb).2) ∧
    HandlerAcct s (handleCoveringKey cfg encOk s i dIdx keyName payload τ cb).1 τ
      (handleCoveringKey cfg encOk s i dIdx keyName payload τ cb).2 := by
  cases h : alookup s.keyRequests τ with
  | none =>
    unfold handleCoveringKey
    rw [h]
    exact ⟨rfl, fun _ _ => rfl, id, by simp [h], Or.inl ⟨h, h, by simp [sendsOf], rfl⟩⟩
  | some kr =>
    have hexn2 : (s, [Effect.exn]).1.db = s.db ∧
        (∀ t'', t'' ≠ τ →
          alookup (s, [Effect.exn]).1.keyRequests t'' = alookup s.keyRequests t'') ∧
        ((s.keyRequests.map Prod.fst).Nodup →
          ((s, [Effect.exn]).1.keyRequests.map Prod.fst).Nodup) ∧
        ((some kr : Option KeyRequest).isSome = true →
          Effect.oob ∉ (s, [Effect.exn]).2) ∧
        HandlerAcct s (s, [Effect.exn]).1 τ (s, [Effect.exn]).2 :=
      ⟨rfl, fun _ _ => rfl, id, fun _ => by simp,
       Or.inr (Or.inl ⟨kr, kr, h, h, rfl, by simp [sendsOf], rfl⟩)⟩
    unfold handleCoveringKey
    rw [h]
    dsimp only
    cases hg2 : getNeg keyName 2 with
    | none =>
      cases hg1 : getNeg keyName 1 with
      | none => dsimp only; exact hexn2
      | some c1 => dsimp only; exact hexn2
    | some c2 =>
      cases hg1 : getNeg keyName 1 with
      | none => dsimp only; exact hexn2
      | some c1 =>
        dsimp only
        cases hp2 : parseIso c2 with
        | none =>
          cases hp1 : parseIso c1 with
          | none => dsimp only; exact hexn2
          | some e => dsimp only; exact hexn2
        | some b =>
          cases hp1 : parseIso c1 with
          | none => dsimp only; exact hexn2
          | some e =>
            dsimp only
            by_cases hst : e ≤ τ
            · rw [if_pos hst]
              have hs' := setRepeatAttempt_spec s τ i.name 0 kr h
              rw [hs']
              refine ⟨rfl, fun t'' ht => alookup_aset_ne _ _ _ _ ht,
                fun hh => nodup_aset _ _ _ hh, fun _ => by simp, ?_⟩
              exact Or.inr (Or.inl ⟨kr, _, h, alookup_aset_self .., rfl,
                by simp [sendsOf], rfl⟩)
            · rw [if_neg hst]
              rw [encryptContentKey_spec cfg encOk s payload keyName τ cb kr h]
              by_cases hok : encOk payload (getContentKey s.db τ)
              · rw [if_pos hok]
                by_cases hz : kr.interestCount - 1 = 0 ∧ cb = true
                · rw [if_pos hz]
                  dsimp only
                  refine ⟨rfl, fun t'' ht => alookup_aerase_ne _ _ _ ht,
                    fun hh => nodup_aerase _ _ hh, fun _ => by simp, ?_⟩
                  exact Or.inr (Or.inr (Or.inr ⟨kr, h, hz.1, alookup_aerase_self ..,
                    by simp [sendsOf], ⟨_, rfl⟩⟩))
                · rw [if_neg hz]
                  dsimp only
                  refine ⟨rfl, fun t'' ht => alookup_aset_ne _ _ _ _ ht,
                    fun hh => nodup_aset _ _ _ hh, fun _ => by simp, ?_⟩
                  exact Or.inr (Or.inr (Or.inl ⟨kr, _, h, alookup_aset_self .., rfl,
                    by simp [sendsOf], rfl⟩))
              · rw [if_neg hok]
                dsimp only
                refine ⟨rfl, fun _ _ => rfl, id, fun _ => by simp, ?_⟩
                exact Or.inr (Or.inl ⟨kr, kr, h, h, rfl, by simp [sendsOf], rfl⟩)

theorem pendCount_pos_of_mem (l : List PendInterest) (p : PendInterest) (t : Nat)
    (hp : p ∈ l) (ht : p.timeslot = t) : 1 ≤ pendCount l t :=
  List.length_pos_of_mem (List.mem_filter.mpr ⟨hp, by simp [ht]⟩)

theorem inv_rebuild (sys : PSys) (idx : Nat) (p : PendInterest) (s' : ProducerState)
    (effs : List Effect) (cb' : Bool)
    (hInv : Inv sys)
    (hget : sys.pending.get? idx = some p)
    (hdb : s'.db = sys.ps.db)
    (hne : ∀ t'', t'' ≠ p.timeslot →
      alookup s'.keyRequests t'' = alookup sys.ps.keyRequests t'')
    (hnd : (sys.ps.keyRequests.map Prod.fst).Nodup →
      (s'.keyRequests.map Prod.fst).Nodup)
    (hacct : HandlerAcct sys.ps s' p.timeslot effs) :
    Inv ⟨s', removeIdx sys.pending idx ++ toPending p.timeslot cb' effs⟩ := by
  obtain ⟨I1, I2, I3, I4⟩ := hInv
  have hpmem : p ∈ sys.pending := List.get?_mem hget
  have hpsome : (alookup sys.ps.keyRequests p.timeslot).isSome = true := I1 p hpmem
  have hent : ∃ kr, alookup sys.ps.keyRequests p.timeslot = some kr := by
    cases hv : alookup sys.ps.keyRequests p.timeslot with
    | none => rw [hv] at hpsome; simp at hpsome
    | some kr => exact ⟨kr, rfl⟩
  obtain ⟨krp, hkrp⟩ := hent
  have hacct' : HandlerAcct sys.ps s' p.timeslot effs := hacct
  have hcnt_old : ∀ t'', pendCount sys.pending t'' =
      pendCount (removeIdx sys.pending idx) t'' +
        (if p.timeslot = t'' then 1 else 0) :=
    fun t'' => pendCount_removeIdx sys.pending idx p t'' hget
  have hcnt_new : ∀ t'', pendCount (removeIdx sys.pending idx ++
      toPending p.timeslot cb' effs) t'' =
      pendCount (removeIdx sys.pending idx) t'' +
        (if p.timeslot = t'' then (sendsOf effs).length else 0) := by
    intro t''
    rw [pendCount_append, pendCount_toPending]
  rcases hacct' with ⟨h0, _⟩ | ⟨kr, kr', ha1, ha2, ha3, ha4, ha5⟩ |
    ⟨kr, kr', ha1, ha2, ha3, ha4, ha5⟩ | ⟨kr, ha1, ha2, ha3, ha4, ha5⟩
  · rw [h0] at hkrp
    exact absurd hkrp (by simp)
  · -- count preserved, at most one re-issue
    refine ⟨?_, ?_, ?_, hnd I4⟩
    · intro q hq
      rcases List.mem_append.mp hq with hq' | hq'
      · by_cases hqt : q.timeslot = p.timeslot
        · rw [hqt, ha2]
          rfl
        · rw [hne _ hqt]
          exact I1 q (mem_removeIdx _ _ _ hq')
      · rw [toPending_timeslot _ _ _ _ hq', ha2]
        rfl
    · intro pr hpr
      have hl : alookup s'.keyRequests pr.1 = some pr.2 := mem_alookup _ _ _ (hnd I4) hpr
      by_cases hprt : pr.1 = p.timeslot
      · rw [hprt] at hl
        rw [hl] at ha2
        injection ha2 with ha2
        have hold : Int.ofNat (pendCount sys.pending p.timeslot) ≤ kr.interestCount := by
          have := I2 (p.timeslot, kr) (alookup_mem _ _ _ ha1)
          exact this
        have h1 := hcnt_old p.timeslot
        have h2 := hcnt_new p.timeslot
        rw [if_pos rfl] at h1 h2
        rw [hprt, h2, ha2, ha3]
        simp only [Int.ofNat_eq_coe] at hold ⊢
        omega
      · have hl' : alookup sys.ps.keyRequests pr.1 = some pr.2 := by
          rw [← hne _ hprt]
          exact hl
        have hold := I2 (pr.1, pr.2) (alookup_mem _ _ _ hl')
        have h1 := hcnt_old pr.1
        have h2 := hcnt_new pr.1
        rw [if_neg (fun hc => hprt hc.symm)] at h1 h2
        simp only [Int.ofNat_eq_coe] at hold ⊢
        omega
    · intro pr hpr
      have hl : alookup s'.keyRequests pr.1 = some pr.2 := mem_alookup _ _ _ (hnd I4) hpr
      rw [hdb]
      by_cases hprt : pr.1 = p.timeslot
      · rw [hprt]
        exact I3 (p.timeslot, kr) (alookup_mem _ _ _ ha1)
      · have hl' : alookup sys.ps.keyRequests pr.1 = some pr.2 := by
          rw [← hne _ hprt]
          exact hl
        exact I3 (pr.1, pr.2) (alookup_mem _ _ _ hl')
  · -- decremented, kept
    refine ⟨?_, ?_, ?_, hnd I4⟩
    · intro q hq
      rcases List.mem_append.mp hq with hq' | hq'
      · by_cases hqt : q.timeslot = p.timeslot
        · rw [hqt, ha2]
          rfl
        · rw [hne _ hqt]
          exact I1 q (mem_removeIdx _ _ _ hq')
      · rw [toPending_timeslot _ _ _ _ hq', ha2]
        rfl
    · intro pr hpr
      have hl : alookup s'.keyRequests pr.1 = some pr.2 := mem_alookup _ _ _ (hnd I4) hpr
      by_cases hprt : pr.1 = p.timeslot
      · rw [hprt] at hl
        rw [hl] at ha2
        injection ha2 with ha2
        have hold : Int.ofNat (pendCount sys.pending p.timeslot) ≤ kr.interestCount :=
          I2 (p.timeslot, kr) (alookup_mem _ _ _ ha1)
        have h1 := hcnt_old p.timeslot
        have h2 := hcnt_new p.timeslot
        rw [if_pos rfl] at h1 h2
        rw [ha4] at h2
        rw [hprt, h2, ha2, ha3]
        simp only [Int.ofNat_eq_coe, List.length_nil] at hold h2 ⊢
        omega
      · have hl' : alookup sys.ps.keyRequests pr.1 = some pr.2 := by
          rw [← hne _ hprt]
          exact hl
        have hold := I2 (pr.1, pr.2) (alookup_mem _ _ _ hl')
        have h1 := hcnt_old pr.1
        have h2 := hcnt_new pr.1
        rw [if_neg (fun hc => hprt hc.symm)] at h1 h2
        simp only [Int.ofNat_eq_coe] at hold ⊢
        omega
    · intro pr hpr
      have hl : alookup s'.keyRequests pr.1 = some pr.2 := mem_alookup _ _ _ (hnd I4) hpr
      rw [hdb]
      by_cases hprt : pr.1 = p.timeslot
      · rw [hprt]
        exact I3 (p.timeslot, kr) (alookup_mem _ _ _ ha1)
      · have hl' : alookup sys.ps.keyRequests pr.1 = some pr.2 := by
          rw [← hne _ hprt]
          exact hl
        exact I3 (pr.1, pr.2) (alookup_mem _ _ _ hl')
  · -- erased at count zero: no other pending interest for this timeslot exists
    have hkeq : kr = krp := by
      rw [ha1] at hkrp
      injection hkrp
    subst hkeq
    have hcount1 : kr.interestCount = 1 := by omega
    have holdI2 : Int.ofNat (pendCount sys.pending p.timeslot) ≤ kr.interestCount :=
      I2 (p.timeslot, kr) (alookup_mem _ _ _ ha1)
    have hpc1 : pendCount sys.pending p.timeslot = 1 := by
      have hge := pendCount_pos_of_mem sys.pending p p.timeslot hpmem rfl
      rw [hcount1] at holdI2
      simp only [Int.ofNat_eq_coe] at holdI2
      omega
    have hpcIdx : pendCount (removeIdx sys.pending idx) p.timeslot = 0 := by
      have h1 := hcnt_old p.timeslot
      rw [if_pos rfl] at h1
      omega
    refine ⟨?_, ?_, ?_, hnd I4⟩
    · intro q hq
      rcases List.mem_append.mp hq with hq' | hq'
      · by_cases hqt : q.timeslot = p.timeslot
        · exact absurd hqt (pendCount_zero_no_mem _ _ hpcIdx q hq')
        · rw [hne _ hqt]
          exact I1 q (mem_removeIdx _ _ _ hq')
      · rw [toPending_eq, ha4] at hq'
        simp at hq'
    · intro pr hpr
      have hl : alookup s'.keyRequests pr.1 = some pr.2 := mem_alookup _ _ _ (hnd I4) hpr
      by_cases hprt : pr.1 = p.timeslot
      · rw [hprt, ha3] at hl
        simp at hl
      · have hl' : alookup sys.ps.keyRequests pr.1 = some pr.2 := by
          rw [← hne _ hprt]
          exact hl
        have hold := I2 (pr.1, pr.2) (alookup_mem _ _ _ hl')
        have h1 := hcnt_old pr.1
        have h2 := hcnt_new pr.1
        rw [if_neg (fun hc => hprt hc.symm)] at h1 h2
        simp only [Int.ofNat_eq_coe] at hold ⊢
        omega
    · intro pr hpr
      have hl : alookup s'.keyRequests pr.1 = some pr.2 := mem_alookup _ _ _ (hnd I4) hpr
      rw [hdb]
      by_cases hprt : pr.1 = p.timeslot
      · rw [hprt, ha3] at hl
        simp at hl
      · have hl' : alookup sys.ps.keyRequests pr.1 = some pr.2 := by
          rw [← hne _ hprt]
          exact hl
        exact I3 (pr.1, pr.2) (alookup_mem _ _ _ hl')

theorem stuck_rebuild (sys : PSys) (idx : Nat) (p : PendInterest) (s' : ProducerState)
    (effs : List Effect) (cb' : Bool) (t : Nat)
    (hSt : Stuck t sys)
    (hget : sys.pending.get? idx = some p)
    (hdb : s'.db = sys.ps.db)
    (hne : ∀ t'', t'' ≠ p.timeslot →
      alookup s'.keyRequests t'' = alookup sys.ps.keyRequests t'')
    (hacct : HandlerAcct sys.ps s' p.timeslot effs) :
    Stuck t ⟨s', removeIdx sys.pending idx ++ toPending p.timeslot cb' effs⟩ ∧
    (∀ e ∈ effs, isKeysCbFor t e = false) := by
  obtain ⟨krt, hkt, hcnt, hdbt⟩ := hSt
  have hpmem : p ∈ sys.pending := List.get?_mem hget
  have hcnt_old : ∀ t'', pendCount sys.pending t'' =
      pendCount (removeIdx sys.pending idx) t'' +
        (if p.timeslot = t'' then 1 else 0) :=
    fun t'' => pendCount_removeIdx sys.pending idx p t'' hget
  have hcnt_new : ∀ t'', pendCount (removeIdx sys.pending idx ++
      toPending p.timeslot cb' effs) t'' =
      pendCount (removeIdx sys.pending idx) t'' +
        (if p.timeslot = t'' then (sendsOf effs).length else 0) := by
    intro t''
    rw [pendCount_append, pendCount_toPending]
  by_cases htp : t = p.timeslot
  · -- the consumed interest belongs to the stuck request
    subst htp
    have hpc1 : 1 ≤ pendCount sys.pending p.timeslot :=
      pendCount_pos_of_mem _ p p.timeslot hpmem rfl
    rcases hacct with ⟨h0, _⟩ | ⟨kr, kr', ha1, ha2, ha3, ha4, ha5⟩ |
      ⟨kr, kr', ha1, ha2, ha3, ha4, ha5⟩ | ⟨kr, ha1, ha2, ha3, ha4, ha5⟩
    · rw [h0] at hkt
      exact absurd hkt (by simp)
    · rw [hkt] at ha1
      injection ha1 with ha1
      subst ha1
      refine ⟨⟨kr', ha2, ?_, by rw [hdb]; exact hdbt⟩, ?_⟩
      · rw [hcnt_new p.timeslot, if_pos rfl, ha3]
        have h1 := hcnt_old p.timeslot
        rw [if_pos rfl] at h1
        simp only [Int.ofNat_eq_coe] at hcnt ⊢
        omega
      · exact fun e he => no_keysCbFor_of_nil effs ha5 p.timeslot e he
    · rw [hkt] at ha1
      injection ha1 with ha1
      subst ha1
      refine ⟨⟨kr', ha2, ?_, by rw [hdb]; exact hdbt⟩, ?_⟩
      · rw [hcnt_new p.timeslot, if_pos rfl, ha3, ha4]
        have h1 := hcnt_old p.timeslot
        rw [if_pos rfl] at h1
        simp only [Int.ofNat_eq_coe, List.length_nil] at hcnt ⊢
        omega
      · exact fun e he => no_keysCbFor_of_nil effs ha5 p.timeslot e he
    · rw [hkt] at ha1
      injection ha1 with ha1
      subst ha1
      have h1 := hcnt_old p.timeslot
      rw [if_pos rfl] at h1
      simp only [Int.ofNat_eq_coe] at hcnt
      omega
  · -- an event for a different timeslot
    have hne' : alookup s'.keyRequests t = some krt := by
      rw [hne t htp]
      exact hkt
    refine ⟨⟨krt, hne', ?_, by rw [hdb]; exact hdbt⟩, ?_⟩
    · rw [hcnt_new t, if_neg (fun hc => htp hc.symm)]
      have h1 := hcnt_old t
      rw [if_neg (fun hc => htp hc.symm)] at h1
      simp only [Int.ofNat_eq_coe] at hcnt ⊢
      omega
    · rcases hacct with ⟨_, _, _, h5⟩ | ⟨_, _, _, _, _, _, h5⟩ |
        ⟨_, _, _, _, _, _, h5⟩ | ⟨_, _, _, _, _, ks, h5⟩
      · exact fun e he => no_keysCbFor_of_nil effs h5 t e he
      · exact fun e he => no_keysCbFor_of_nil effs h5 t e he
      · exact fun e he => no_keysCbFor_of_nil effs h5 t e he
      · intro e he
        cases hv : isKeysCbFor t e
        · rfl
        · exact absurd (keysCbFor_of_single effs p.timeslot ks h5 t e he hv) htp

theorem runC_timeout_pos (ds : List NdnName) (evs : List NetEvent) (i : CInterest)
    (n : Int) (dIdx : Nat) (hn : 0 < n) :
    runC ds (NetEvent.timeout :: evs) i n dIdx =
      ((i, n) :: (runC ds evs i (n - 1) dIdx).1, (runC ds evs i (n - 1) dIdx).2) := by
  rw [runC]
  simp [hn]

theorem runC_timeout_nonpos (ds : List NdnName) (evs : List NetEvent) (i : CInterest)
    (n : Int) (dIdx : Nat) (hn : n ≤ 0) :
    runC ds (NetEvent.timeout :: evs) i n dIdx = runC ds (NetEvent.nack :: evs) i n dIdx := by
  have hn' : ¬ (0 < n) := by omega
  rw [runC, runC]
  simp [hn']

theorem runC_nack_reissue (ds : List NdnName) (evs : List NetEvent) (i : CInterest)
    (n : Int) (dIdx : Nat) (i' : CInterest) (d' : Nat)
    (h : handleNackC ds i dIdx = NackResult.reissue i' d') :
    runC ds (NetEvent.nack :: evs) i n dIdx =
      ((i, n) :: (runC ds evs i' 0 d').1, (runC ds evs i' 0 d').2) := by
  rw [runC]
  simp [h]

theorem runC_nack_fail (ds : List NdnName) (evs : List NetEvent) (i : CInterest)
    (n : Int) (dIdx : Nat) (u : NdnName)
    (h : handleNackC ds i dIdx = NackResult.fail u) :
    runC ds (NetEvent.nack :: evs) i n dIdx = ([(i, n)], some u) := by
  rw [runC]
  simp [h]

theorem runC_exhaust_aux (ds : List NdnName) (nm : NdnName) :
    ∀ k j, j + k + 1 = ds.length →
      runC ds (List.replicate (k + 1) NetEvent.nack) ⟨nm, some ds, some j⟩ 0 j =
        ((List.range' j (k + 1)).map
          (fun m => ((⟨nm, some ds, some m⟩ : CInterest), (0 : Int))), some nm) := by
  intro k
  induction k with
  | zero =>
    intro j hj
    have hne : ds.isEmpty = false := by
      cases ds
      · simp at hj
      · rfl
    have hlt : ¬ (j + 1 < ds.length) := by omega
    have hstep : handleNackC ds ⟨nm, some ds, some j⟩ j = NackResult.fail nm := by
      simp [handleNackC, hne, hlt]
    have hrepl : List.replicate (0 + 1) NetEvent.nack = NetEvent.nack :: [] := rfl
    rw [hrepl, runC_nack_fail ds [] _ 0 j nm hstep]
    simp [List.range']
  | succ k ih =>
    intro j hj
    have hne : ds.isEmpty = false := by
      cases ds
      · simp at hj
      · rfl
    have hlt : j + 1 < ds.length := by omega
    have hstep : handleNackC ds ⟨nm, some ds, some j⟩ j =
        NackResult.reissue ⟨nm, some ds, some (j + 1)⟩ (j + 1) := by
      simp [handleNackC, hne, hlt]
    have hrepl : List.replicate (k + 1 + 1) NetEvent.nack =
        NetEvent.nack :: List.replicate (k + 1) NetEvent.nack := rfl
    rw [hrepl, runC_nack_reissue ds _ _ 0 j _ _ hstep, ih (j + 1) (by omega)]
    simp [List.range']

/-- C6: consumer retry and link fallback.  A timeout with positive budget
resends the identical interest with budget one less; an exhausted budget is
handled exactly like a NACK; a NACK on an interest without a selected
delegation re-issues it with the link attached and delegation 0, one with a
selected delegation advances to the next index or, with delegations exhausted
or absent, reports `DataRetrievalFailure` with the interest URI; every NACK
re-issue carries budget 0; and under persistent NACKs each delegation is
attempted once in index order before the failure is reported. -/
theorem claim_C6_consumer_retry (ds : List NdnName) (evs : List NetEvent)
    (i : CInterest) (n : Int) (dIdx : Nat) :
    (0 < n →
      runC ds (NetEvent.timeout :: evs) i n dIdx =
        ((i, n) :: (runC ds evs i (n - 1) dIdx).1, (runC ds evs i (n - 1) dIdx).2)) ∧
    (n ≤ 0 →
      runC ds (NetEvent.timeout :: evs) i n dIdx =
        runC ds (NetEvent.nack :: evs) i n dIdx) ∧
    (ds ≠ [] → i.selDelegation = none →
      handleNackC ds i dIdx = NackResult.reissue ⟨i.name, some ds, some 0⟩ 0) ∧
    (ds ≠ [] → ∀ j, i.selDelegation = some j →
      (dIdx + 1 < ds.length →
        handleNackC ds i dIdx =
          NackResult.reissue ⟨i.name, i.link, some (dIdx + 1)⟩ (dIdx + 1)) ∧
      (¬ dIdx + 1 < ds.length → handleNackC ds i dIdx = NackResult.fail i.name)) ∧
    (ds = [] → handleNackC ds i dIdx = NackResult.fail i.name) ∧
    (∀ i' d', handleNackC ds i dIdx = NackResult.reissue i' d' →
      runC ds (NetEvent.nack :: evs) i n dIdx =
        ((i, n) :: (runC ds evs i' 0 d').1, (runC ds evs i' 0 d').2)) ∧
    (∀ u, handleNackC ds i dIdx = NackResult.fail u →
      runC ds (NetEvent.nack :: evs) i n dIdx = ([(i, n)], some u)) ∧
    (ds ≠ [] → i.selDelegation = none →
      runC ds (List.replicate (ds.length + 1) NetEvent.nack) i n 0 =
        ((i, n) :: (List.range ds.length).map
          (fun j => ((⟨i.name, some ds, some j⟩ : CInterest), (0 : Int))), some i.name)) := by
  refine ⟨?_, ?_, ?_, ?_, ?_, ?_, ?_, ?_⟩
  · intro hn
    exact runC_timeout_pos ds evs i n dIdx hn
  · intro hn
    exact runC_timeout_nonpos ds evs i n dIdx hn
  · intro hne hsel
    have h0 : ds.isEmpty = false := by
      cases ds
      · exact absurd rfl hne
      · rfl
    simp [handleNackC, h0, hsel]
  · intro hne j hsel
    have h0 : ds.isEmpty = false := by
      cases ds
      · exact absurd rfl hne
      · rfl
    constructor
    · intro hlt
      simp [handleNackC, h0, hsel, hlt]
    · intro hlt
      simp [handleNackC, h0, hsel, hlt]
  · intro he
    subst he
    simp [handleNackC]
  · intro i' d' hh
    exact runC_nack_reissue ds evs i n dIdx i' d' hh
  · intro u hh
    exact runC_nack_fail ds evs i n dIdx u hh
  · intro hne hsel
    have h0 : ds.isEmpty = false := by
      cases ds
      · exact absurd rfl hne
      · rfl
    have hlen : 0 < ds.length := by
      cases ds
      · exact absurd rfl hne
      · simp
    have hfirst : handleNackC ds i 0 = NackResult.reissue ⟨i.name, some ds, some 0⟩ 0 := by
      simp [handleNackC, h0, hsel]
    have haux := runC_exhaust_aux ds i.name (ds.length - 1) 0 (by omega)
    have hrep : ds.length - 1 + 1 = ds.length := by omega
    rw [hrep] at haux
    have hrepl : List.replicate (ds.length + 1) NetEvent.nack =
        NetEvent.nack :: List.replicate ds.length NetEvent.nack := rfl
    rw [hrepl, runC_nack_reissue ds _ i n 0 _ _ hfirst, haux, List.range_eq_range']

/-- Witness for C6 at concrete inputs: a two-delegation link, one interest
without a selected delegation, budget 1. -/
theorem claim_C6_consumer_retry_witness :
    runC [[Component.gen 1], [Component.gen 2]]
        (List.replicate 3 NetEvent.nack) ⟨[Component.gen 0], none, none⟩ 1 0 =
      ((⟨[Component.gen 0], none, none⟩, 1) ::
        (List.range 2).map
          (fun j => ((⟨[Component.gen 0],
            some [[Component.gen 1], [Component.gen 2]], some j⟩ : CInterest), (0 : Int))),
        some [Component.gen 0]) ∧
    runC [] (NetEvent.timeout :: []) ⟨[Component.gen 0], none, none⟩ 1 0 =
      ((⟨[Component.gen 0], none, none⟩, 1) ::
        (runC [] [] ⟨[Component.gen 0], none, none⟩ 0 0).1,
       (runC [] [] ⟨[Component.gen 0], none, none⟩ 0 0).2) := by
  constructor
  · exact (claim_C6_consumer_retry [[Component.gen 1], [Component.gen 2]] []
      ⟨[Component.gen 0], none, none⟩ 1 0).2.2.2.2.2.2.2 (by decide) (by decide)
  · have h := (claim_C6_consumer_retry [] [] ⟨[Component.gen 0], none, none⟩ 1 0).1 (by decide)
    simpa using h

/-- C2 (source defect): a D-KEY data packet with three sub-blocks makes
`decryptDKey` report `InvalidEncryptedFormat`, yet — the check does not
return — decryption continues with the first two sub-blocks and still delivers
a plaintext, so the malformed case is not treated as terminal. -/
theorem claim_C2_malformed_not_terminal :
    decryptDKey [([Component.gen 1], [5])]
      [⟨Algo.rsaOaep, [Component.gen 1], [], [10]⟩,
       ⟨Algo.aesCbc, [Component.gen 2], [7], [11]⟩,
       ⟨Algo.aesCbc, [Component.gen 3], [], []⟩] =
    some [CEffect.consumerError ErrorCode.invalidEncryptedFormat,
          CEffect.plainText (Bytes.aesDec (Bytes.rsaDec (Bytes.raw [5]) [10]) [7] [11])] := by
  rfl

theorem alookup_cons_self {α β : Type} [DecidableEq α] (l : List (α × β)) (k : α) (v : β) :
    alookup ((k, v) :: l) k = some v := by
  simp [alookup]

theorem alookup_cons_ne {α β : Type} [DecidableEq α] (l : List (α × β)) (a k : α) (b : β)
    (h : a ≠ k) : alookup ((a, b) :: l) k = alookup l k := by
  simp [alookup, h]

theorem filter_length_split {α : Type} (p : α → Bool) (l : List α) :
    (l.filter p).length + (l.filter (fun a => !p a)).length = l.length := by
  induction l with
  | nil => rfl
  | cons hd rest ih =>
    by_cases h : p hd = true
    · rw [List.filter_cons_of_pos h, List.filter_cons_of_neg (by simp [h])]
      simp only [List.length_cons]
      omega
    · rw [List.filter_cons_of_neg h, List.filter_cons_of_pos (by simp [h])]
      simp only [List.length_cons]
      omega

theorem dcount_le_uncov (encOk : Buffer → Buffer → Bool) (ct : Buffer) (t : Nat)
    (l : List (NdnName × KeyInfo)) :
    dcount encOk ct t l ≤ (l.filter (fun e => !uncov t e)).length := by
  induction l with
  | nil => exact Nat.le_refl 0
  | cons hd rest ih =>
    unfold dcount at ih ⊢
    simp only [List.filter_cons]
    by_cases hu : (!uncov t hd && encOk hd.2.keyBits ct) = true
    · have hu2 : (!uncov t hd) = true := by
        simp only [Bool.and_eq_true] at hu
        exact hu.1
      rw [if_pos hu, if_pos hu2]
      simp only [List.length_cons]
      omega
    · rw [if_neg hu]
      by_cases hu2 : (!uncov t hd) = true
      · rw [if_pos hu2]
        simp only [List.length_cons]
        omega
      · rw [if_neg hu2]
        exact ih

theorem pendCount_eq_zero (l : List PendInterest) (t : Nat)
    (h : ∀ p ∈ l, p.timeslot ≠ t) : pendCount l t = 0 := by
  rw [pendCount, List.length_eq_zero, List.filter_eq_nil_iff]
  intro p hp
  simp [h p hp]

theorem hasContentKey_add_self (db : List (Nat × Buffer)) (t : Nat) (fr : Buffer) :
    hasContentKey (addContentKey db t fr) t = true := by
  unfold hasContentKey addContentKey
  rw [alookup_aset_self]
  rfl

theorem hasContentKey_add_mono (db : List (Nat × Buffer)) (u : Nat) (fr : Buffer) (t : Nat)
    (h : hasContentKey db t = true) :
    hasContentKey (addContentKey db u fr) t = true := by
  unfold hasContentKey at h ⊢
  unfold addContentKey
  exact alookup_isSome_aset db (getRoundedTimeslot u) (getRoundedTimeslot t) fr h

theorem updateKeyRequest_tag (s : ProducerState) (τ : Nat) (cb : Bool) (t : Nat)
    (ht : t ≠ τ) : ∀ e ∈ (updateKeyRequest s τ cb).2, isKeysCbFor t e = false := by
  cases h : alookup s.keyRequests τ with
  | none =>
    unfold updateKeyRequest
    rw [h]
    intro e he
    rw [List.mem_singleton.mp he]
    rfl
  | some kr =>
    rw [updateKeyRequest_spec s τ cb kr h]
    by_cases hz : kr.interestCount - 1 = 0 ∧ cb = true
    · rw [if_pos hz]
      intro e he
      dsimp only at he
      rw [List.mem_singleton.mp he]
      show (τ == t) = false
      simp only [beq_eq_false_iff_ne]
      exact fun hc => ht hc.symm
    · rw [if_neg hz]
      intro e he
      simp at he

theorem encryptContentKey_tag (cfg : ProducerCfg) (encOk : Buffer → Buffer → Bool)
    (s : ProducerState) (key : Buffer) (eName : NdnName) (τ : Nat) (cb : Bool) (t : Nat)
    (ht : t ≠ τ) :
    ∀ e ∈ (encryptContentKey cfg encOk s key eName τ cb).2.2, isKeysCbFor t e = false := by
  cases h : alookup s.keyRequests τ with
  | none =>
    unfold encryptContentKey
    rw [h]
    intro e he
    rw [List.mem_singleton.mp he]
    rfl
  | some kr =>
    rw [encryptContentKey_spec cfg encOk s key eName τ cb kr h]
    by_cases hok : encOk key (getContentKey s.db τ)
    · rw [if_pos hok]
      by_cases hz : kr.interestCount - 1 = 0 ∧ cb = true
      · rw [if_pos hz]
        intro e he
        dsimp only at he
        rcases List.mem_cons.mp he with he1 | he2
        · rw [he1]
          rfl
        · rw [List.mem_singleton.mp he2]
          show (τ == t) = false
          simp only [beq_eq_false_iff_ne]
          exact fun hc => ht hc.symm
      · rw [if_neg hz]
        intro e he
        dsimp only at he
        rw [List.mem_singleton.mp he]
        rfl
    · rw [if_neg hok]
      intro e he
      dsimp only at he
      rcases List.mem_cons.mp he with he1 | he2
      · rw [he1]
        rfl
      · rw [List.mem_singleton.mp he2]
        rfl

theorem ckLoop_tag (cfg : ProducerCfg) (encOk : Buffer → Buffer → Bool) (τ : Nat)
    (cb : Bool) (tr : Exclude) (t : Nat) (ht : t ≠ τ) :
    ∀ (l : List (NdnName × KeyInfo)) (s : ProducerState),
      ∀ e ∈ (ckLoop cfg encOk τ cb tr l s).2, isKeysCbFor t e = false := by
  intro l
  induction l with
  | nil =>
    intro s e he
    simp [ckLoop] at he
  | cons hd rest ih =>
    intro s
    obtain ⟨k, info⟩ := hd
    by_cases hu : τ < info.beginTimeslot ∨ info.endTimeslot ≤ τ
    · have hck : ckLoop cfg encOk τ cb tr ((k, info) :: rest) s =
          ((ckLoop cfg encOk τ cb tr rest (setRepeatAttempt s τ k 0)).1,
           Effect.sendInterest ⟨k, tr, some 1, false, none⟩ 0 ::
             (ckLoop cfg encOk τ cb tr rest (setRepeatAttempt s τ k 0)).2) := by
        simp only [ckLoop]
        rw [if_pos hu]
      rw [hck]
      intro e he
      rcases List.mem_cons.mp he with he1 | he2
      · rw [he1]
        rfl
      · exact ih _ e he2
    · have hck : ckLoop cfg encOk τ cb tr ((k, info) :: rest) s =
          ((ckLoop cfg encOk τ cb tr rest
              (encryptContentKey cfg encOk s info.keyBits
                (k ++ [Component.iso info.beginTimeslot, Component.iso info.endTimeslot])
                τ cb).2.1).1,
           (encryptContentKey cfg encOk s info.keyBits
              (k ++ [Component.iso info.beginTimeslot, Component.iso info.endTimeslot])
              τ cb).2.2 ++
             (ckLoop cfg encOk τ cb tr rest
               (encryptContentKey cfg encOk s info.keyBits
                 (k ++ [Component.iso info.beginTimeslot, Component.iso info.endTimeslot])
                 τ cb).2.1).2) := by
        simp only [ckLoop]
        rw [if_neg hu]
      rw [hck]
      intro e he
      rcases List.mem_append.mp he with he1 | he2
      · exact encryptContentKey_tag cfg encOk s info.keyBits _ τ cb t ht e he1
      · exact ih _ e he2

/-- The shape of `createContentKey` when the content key is absent but a
KeyRequest for the timeslot already exists: `std::map::insert` keeps the
existing entry and the loop runs against it. -/
theorem createContentKey_existing (cfg : ProducerCfg) (encOk : Buffer → Buffer → Bool)
    (s : ProducerState) (fresh : Buffer) (t : Nat) (cb : Bool)
    (hhas : hasContentKey s.db t = false)
    (hkr : (alookup s.keyRequests t).isSome = true) :
    createContentKey cfg encOk s fresh t cb =
      (contentKeyNameOf cfg t,
       ckLoop cfg encOk t cb (Exclude.empty.excludeAfter (Component.iso t)) s.ekeyInfo
         ⟨addContentKey s.db t fresh, s.keyRequests, s.ekeyInfo⟩) := by
  unfold createContentKey
  rw [if_neg (by simp [hhas])]
  dsimp only
  rw [if_pos hkr]

/-- Frame of a `createContentKey` call at a foreign timeslot `τ`: the
KeyRequest at any other timeslot `t` is untouched, its DB row survives, and no
emitted effect is the completion callback for `t`. -/
theorem createContentKey_frameT (cfg : ProducerCfg) (encOk : Buffer → Buffer → Bool)
    (s : ProducerState) (fresh : Buffer) (τ : Nat) (cb : Bool) (t : Nat) (ht : t ≠ τ) :
    alookup (createContentKey cfg encOk s fresh τ cb).2.1.keyRequests t =
      alookup s.keyRequests t ∧
    (hasContentKey s.db t = true →
      hasContentKey (createContentKey cfg encOk s fresh τ cb).2.1.db t = true) ∧
    (∀ e ∈ (createContentKey cfg encOk s fresh τ cb).2.2, isKeysCbFor t e = false) := by
  by_cases hhas : hasContentKey s.db τ = true
  · have hr : createContentKey cfg encOk s fresh τ cb = (contentKeyNameOf cfg τ, s, []) := by
      unfold createContentKey
      rw [if_pos hhas]
    rw [hr]
    refine ⟨rfl, fun h => h, ?_⟩
    intro e he
    simp at he
  · have hhas2 : hasContentKey s.db τ = false := by
      cases hv : hasContentKey s.db τ
      · rfl
      · exact absurd hv hhas
    by_cases hks : (alookup s.keyRequests τ).isSome = true
    · rw [createContentKey_existing cfg encOk s fresh τ cb hhas2 hks]
      obtain ⟨hdb, hek, hne, hnd, hsends⟩ := ckLoop_frame cfg encOk τ cb
        (Exclude.empty.excludeAfter (Component.iso τ)) s.ekeyInfo
        ⟨addContentKey s.db τ fresh, s.keyRequests, s.ekeyInfo⟩
      refine ⟨?_, ?_, ?_⟩
      · rw [hne t ht]
      · intro h
        rw [hdb]
        exact hasContentKey_add_mono s.db τ fresh t h
      · exact fun e he => ckLoop_tag cfg encOk τ cb _ t ht _ _ e he
    · have hkr : alookup s.keyRequests τ = none := by
        cases hv : alookup s.keyRequests τ
        · rfl
        · rw [hv] at hks
          exact absurd rfl hks
      rw [createContentKey_fresh cfg encOk s fresh τ cb hhas2 hkr]
      obtain ⟨hdb, hek, hne, hnd, hsends⟩ := ckLoop_frame cfg encOk τ cb
        (Exclude.empty.excludeAfter (Component.iso τ)) s.ekeyInfo
        ⟨addContentKey s.db τ fresh,
         (τ, KeyRequest.init s.ekeyInfo.length) :: s.keyRequests, s.ekeyInfo⟩
      refine ⟨?_, ?_, ?_⟩
      · rw [hne t ht]
        exact alookup_cons_ne s.keyRequests τ t _ (fun hc => ht hc.symm)
      · intro h
        rw [hdb]
        exact hasContentKey_add_mono s.db τ fresh t h
      · exact fun e he => ckLoop_tag cfg encOk τ cb _ t ht _ _ e he

theorem step_create (cfg : ProducerCfg) (encOk : Buffer → Buffer → Bool) (sys : PSys)
    (τ : Nat) (fresh : Buffer) (cb : Bool) :
    step cfg encOk sys (PEvent.create τ fresh cb) =
      (⟨(createContentKey cfg encOk sys.ps fresh τ cb).2.1,
        sys.pending ++ toPending τ cb (createContentKey cfg encOk sys.ps fresh τ cb).2.2⟩,
       (createContentKey cfg encOk sys.ps fresh τ cb).2.2) := rfl

theorem step_netData_none (cfg : ProducerCfg) (encOk : Buffer → Buffer → Bool) (sys : PSys)
    (idx : Nat) (keyName : NdnName) (payload : Buffer)
    (h : sys.pending.get? idx = none) :
    step cfg encOk sys (PEvent.netData idx keyName payload) = (sys, []) := by
  simp only [step]
  rw [h]

theorem step_netData_some (cfg : ProducerCfg) (encOk : Buffer → Buffer → Bool) (sys : PSys)
    (idx : Nat) (keyName : NdnName) (payload : Buffer) (p : PendInterest)
    (h : sys.pending.get? idx = some p) :
    step cfg encOk sys (PEvent.netData idx keyName payload) =
      (⟨(handleCoveringKey cfg encOk sys.ps p.interest p.dIdx keyName payload
           p.timeslot p.cb).1,
        removeIdx sys.pending idx ++ toPending p.timeslot p.cb
          (handleCoveringKey cfg encOk sys.ps p.interest p.dIdx keyName payload
            p.timeslot p.cb).2⟩,
       (handleCoveringKey cfg encOk sys.ps p.interest p.dIdx keyName payload
         p.timeslot p.cb).2) := by
  simp only [step]
  rw [h]

theorem step_netNack_none (cfg : ProducerCfg) (encOk : Buffer → Buffer → Bool) (sys : PSys)
    (idx : Nat) (h : sys.pending.get? idx = none) :
    step cfg encOk sys (PEvent.netNack idx) = (sys, []) := by
  simp only [step]
  rw [h]

theorem step_netNack_some (cfg : ProducerCfg) (encOk : Buffer → Buffer → Bool) (sys : PSys)
    (idx : Nat) (p : PendInterest) (h : sys.pending.get? idx = some p) :
    step cfg encOk sys (PEvent.netNack idx) =
      (⟨(handleNackP cfg sys.ps p.interest p.dIdx p.timeslot p.cb).1,
        removeIdx sys.pending idx ++ toPending p.timeslot p.cb
          (handleNackP cfg sys.ps p.interest p.dIdx p.timeslot p.cb).2⟩,
       (handleNackP cfg sys.ps p.interest p.dIdx p.timeslot p.cb).2) := by
  simp only [step]
  rw [h]

theorem step_netTimeout_none (cfg : ProducerCfg) (encOk : Buffer → Buffer → Bool)
    (sys : PSys) (idx : Nat) (h : sys.pending.get? idx = none) :
    step cfg encOk sys (PEvent.netTimeout idx) = (sys, []) := by
  simp only [step]
  rw [h]

theorem step_netTimeout_some (cfg : ProducerCfg) (encOk : Buffer → Buffer → Bool)
    (sys : PSys) (idx : Nat) (p : PendInterest) (h : sys.pending.get? idx = some p) :
    step cfg encOk sys (PEvent.netTimeout idx) =
      (⟨(handleTimeoutP cfg sys.ps p.interest p.dIdx p.timeslot p.cb).1,
        removeIdx sys.pending idx ++ toPending p.timeslot p.cb
          (handleTimeoutP cfg sys.ps p.interest p.dIdx p.timeslot p.cb).2⟩,
       (handleTimeoutP cfg sys.ps p.interest p.dIdx p.timeslot p.cb).2) := by
  simp only [step]
  rw [h]

theorem inv_step (cfg : ProducerCfg) (encOk : Buffer → Buffer → Bool) (sys : PSys)
    (ev : PEvent) (hInv : Inv sys) :
    Inv (step cfg encOk sys ev).1 ∧ Effect.oob ∉ (step cfg encOk sys ev).2 := by
  obtain ⟨I1, I2, I3, I4⟩ := hInv
  cases ev with
  | create τ fresh cb =>
    rw [step_create]
    by_cases hhas : hasContentKey sys.ps.db τ = true
    · have hr : createContentKey cfg encOk sys.ps fresh τ cb =
          (contentKeyNameOf cfg τ, sys.ps, []) := by
        unfold createContentKey
        rw [if_pos hhas]
      rw [hr]
      dsimp only
      rw [show toPending τ cb ([] : List Effect) = [] from rfl, List.append_nil]
      exact ⟨⟨I1, I2, I3, I4⟩, by simp⟩
    · have hhas2 : hasContentKey sys.ps.db τ = false := by
        cases hv : hasContentKey sys.ps.db τ
        · rfl
        · exact absurd hv hhas
      have hkrn : alookup sys.ps.keyRequests τ = none := by
        cases hv : alookup sys.ps.keyRequests τ with
        | none => rfl
        | some kr =>
          have h3 := I3 (τ, kr) (alookup_mem _ _ _ hv)
          rw [hhas2] at h3
          simp at h3
      have hpc0 : pendCount sys.pending τ = 0 := by
        apply pendCount_eq_zero
        intro q hq hc
        have h1 := I1 q hq
        rw [hc, hkrn] at h1
        simp at h1
      rw [createContentKey_fresh cfg encOk sys.ps fresh τ cb hhas2 hkrn]
      dsimp only
      obtain ⟨hoob, hencs, hcond⟩ := ckLoop_main cfg encOk τ cb
        (Exclude.empty.excludeAfter (Component.iso τ)) sys.ps.ekeyInfo
        ⟨addContentKey sys.ps.db τ fresh,
         (τ, KeyRequest.init sys.ps.ekeyInfo.length) :: sys.ps.keyRequests, sys.ps.ekeyInfo⟩
        (KeyRequest.init sys.ps.ekeyInfo.length) (alookup_cons_self _ _ _) (le_refl _)
      obtain ⟨hdbL, hekL, hneL, hndL, hsendsL⟩ := ckLoop_frame cfg encOk τ cb
        (Exclude.empty.excludeAfter (Component.iso τ)) sys.ps.ekeyInfo
        ⟨addContentKey sys.ps.db τ fresh,
         (τ, KeyRequest.init sys.ps.ekeyInfo.length) :: sys.ps.keyRequests, sys.ps.ekeyInfo⟩
      have hnd2 : (((τ, KeyRequest.init sys.ps.ekeyInfo.length) ::
          sys.ps.keyRequests).map Prod.fst).Nodup := by
        rw [List.map_cons, List.nodup_cons]
        exact ⟨(alookup_eq_none _ _).mp hkrn, I4⟩
      have hndL2 := hndL hnd2
      refine ⟨⟨?_, ?_, ?_, hndL2⟩, hoob⟩
      · intro q hq
        dsimp only at hq ⊢
        rcases List.mem_append.mp hq with hq2 | hq2
        · by_cases hqt : q.timeslot = τ
          · exact absurd hqt (pendCount_zero_no_mem sys.pending τ hpc0 q hq2)
          · rw [hneL q.timeslot hqt]
            dsimp only
            rw [alookup_cons_ne _ τ q.timeslot _ (fun hc => hqt hc.symm)]
            exact I1 q hq2
        · have hqt := toPending_timeslot τ cb _ q hq2
          rw [hqt]
          by_cases hfire : cb = true ∧
              (KeyRequest.init sys.ps.ekeyInfo.length).interestCount =
                Int.ofNat (dcount encOk
                  (getContentKey (⟨addContentKey sys.ps.db τ fresh,
                    (τ, KeyRequest.init sys.ps.ekeyInfo.length) :: sys.ps.keyRequests,
                    sys.ps.ekeyInfo⟩ : ProducerState).db τ) τ sys.ps.ekeyInfo) ∧
              0 < dcount encOk
                (getContentKey (⟨addContentKey sys.ps.db τ fresh,
                  (τ, KeyRequest.init sys.ps.ekeyInfo.length) :: sys.ps.keyRequests,
                  sys.ps.ekeyInfo⟩ : ProducerState).db τ) τ sys.ps.ekeyInfo
          · rw [if_pos hfire] at hcond
            have hs0 : sendsOf (ckLoop cfg encOk τ cb
                (Exclude.empty.excludeAfter (Component.iso τ)) sys.ps.ekeyInfo
                ⟨addContentKey sys.ps.db τ fresh,
                 (τ, KeyRequest.init sys.ps.ekeyInfo.length) :: sys.ps.keyRequests,
                 sys.ps.ekeyInfo⟩).2 = [] := by
              rw [hsendsL, hcond.2.1]
              rfl
            rw [toPending_eq, hs0] at hq2
            simp at hq2
          · rw [if_neg hfire] at hcond
            rw [hcond.1]
            rfl
      · intro pr hpr
        dsimp only at hpr ⊢
        have hl : alookup (ckLoop cfg encOk τ cb
            (Exclude.empty.excludeAfter (Component.iso τ)) sys.ps.ekeyInfo
            ⟨addContentKey sys.ps.db τ fresh,
             (τ, KeyRequest.init sys.ps.ekeyInfo.length) :: sys.ps.keyRequests,
             sys.ps.ekeyInfo⟩).1.keyRequests pr.1 = some pr.2 :=
          mem_alookup _ _ _ hndL2 hpr
        by_cases hprt : pr.1 = τ
        · by_cases hfire : cb = true ∧
              (KeyRequest.init sys.ps.ekeyInfo.length).interestCount =
                Int.ofNat (dcount encOk
                  (getContentKey (⟨addContentKey sys.ps.db τ fresh,
                    (τ, KeyRequest.init sys.ps.ekeyInfo.length) :: sys.ps.keyRequests,
                    sys.ps.ekeyInfo⟩ : ProducerState).db τ) τ sys.ps.ekeyInfo) ∧
              0 < dcount encOk
                (getContentKey (⟨addContentKey sys.ps.db τ fresh,
                  (τ, KeyRequest.init sys.ps.ekeyInfo.length) :: sys.ps.keyRequests,
                  sys.ps.ekeyInfo⟩ : ProducerState).db τ) τ sys.ps.ekeyInfo
          · rw [if_pos hfire] at hcond
            rw [hprt, hcond.1] at hl
            simp at hl
          · rw [if_neg hfire] at hcond
            rw [hprt, hcond.1] at hl
            injection hl with hl
            rw [pendCount_append, pendCount_toPending, hprt, if_pos rfl, hpc0]
            rw [← hl]
            dsimp only
            rw [hsendsL, List.length_map]
            have hic : (KeyRequest.init sys.ps.ekeyInfo.length).interestCount =
                Int.ofNat sys.ps.ekeyInfo.length := rfl
            rw [hic]
            have hsplit := filter_length_split (uncov τ) sys.ps.ekeyInfo
            have hdle := dcount_le_uncov encOk
              (getContentKey (addContentKey sys.ps.db τ fresh) τ) τ sys.ps.ekeyInfo
            simp only [Int.ofNat_eq_coe]
            omega
        · rw [hneL pr.1 hprt] at hl
          dsimp only at hl
          rw [alookup_cons_ne _ τ pr.1 _ (fun hc => hprt hc.symm)] at hl
          have hold := I2 (pr.1, pr.2) (alookup_mem _ _ _ hl)
          rw [pendCount_append, pendCount_toPending, if_neg (fun hc => hprt hc.symm)]
          rw [Nat.add_zero]
          exact hold
      · intro pr hpr
        dsimp only at hpr ⊢
        have hl : alookup (ckLoop cfg encOk τ cb
            (Exclude.empty.excludeAfter (Component.iso τ)) sys.ps.ekeyInfo
            ⟨addContentKey sys.ps.db τ fresh,
             (τ, KeyRequest.init sys.ps.ekeyInfo.length) :: sys.ps.keyRequests,
             sys.ps.ekeyInfo⟩).1.keyRequests pr.1 = some pr.2 :=
          mem_alookup _ _ _ hndL2 hpr
        rw [hdbL]
        dsimp only
        by_cases hprt : pr.1 = τ
        · rw [hprt]
          exact hasContentKey_add_self sys.ps.db τ fresh
        · rw [hneL pr.1 hprt] at hl
          dsimp only at hl
          rw [alookup_cons_ne _ τ pr.1 _ (fun hc => hprt hc.symm)] at hl
          exact hasContentKey_add_mono sys.ps.db τ fresh pr.1
            (I3 (pr.1, pr.2) (alookup_mem _ _ _ hl))
  | netData idx keyName payload =>
    cases hp : sys.pending.get? idx with
    | none =>
      rw [step_netData_none cfg encOk sys idx keyName payload hp]
      exact ⟨⟨I1, I2, I3, I4⟩, by simp⟩
    | some p =>
      rw [step_netData_some cfg encOk sys idx keyName payload p hp]
      dsimp only
      obtain ⟨hdb, hne, hnd, hoob, hacct⟩ := handleCoveringKey_acct cfg encOk sys.ps
        p.interest p.dIdx keyName payload p.timeslot p.cb
      exact ⟨inv_rebuild sys idx p _ _ p.cb ⟨I1, I2, I3, I4⟩ hp hdb hne hnd hacct,
        hoob (I1 p (List.get?_mem hp))⟩
  | netNack idx =>
    cases hp : sys.pending.get? idx with
    | none =>
      rw [step_netNack_none cfg encOk sys idx hp]
      exact ⟨⟨I1, I2, I3, I4⟩, by simp⟩
    | some p =>
      rw [step_netNack_some cfg encOk sys idx p hp]
      dsimp only
      obtain ⟨hdb, hne, hnd, hoob, hacct⟩ := handleNackP_acct cfg sys.ps
        p.interest p.dIdx p.timeslot p.cb
      exact ⟨inv_rebuild sys idx p _ _ p.cb ⟨I1, I2, I3, I4⟩ hp hdb hne hnd hacct,
        hoob (I1 p (List.get?_mem hp))⟩
  | netTimeout idx =>
    cases hp : sys.pending.get? idx with
    | none =>
      rw [step_netTimeout_none cfg encOk sys idx hp]
      exact ⟨⟨I1, I2, I3, I4⟩, by simp⟩
    | some p =>
      rw [step_netTimeout_some cfg encOk sys idx p hp]
      dsimp only
      obtain ⟨hdb, hne, hnd, hoob, hacct⟩ := handleTimeoutP_acct cfg sys.ps
        p.interest p.dIdx p.timeslot p.cb
      exact ⟨inv_rebuild sys idx p _ _ p.cb ⟨I1, I2, I3, I4⟩ hp hdb hne hnd hacct,
        hoob (I1 p (List.get?_mem hp))⟩

theorem inv_run (cfg : ProducerCfg) (encOk : Buffer → Buffer → Bool) :
    ∀ (evs : List PEvent) (sys : PSys), Inv sys →
      Effect.oob ∉ runTrace cfg encOk sys evs := by
  intro evs
  induction evs with
  | nil =>
    intro sys _
    simp [runTrace]
  | cons ev rest ih =>
    intro sys hInv
    obtain ⟨hI, hoob⟩ := inv_step cfg encOk sys ev hInv
    intro hmem
    simp only [runTrace] at hmem
    rcases List.mem_append.mp hmem with h | h
    · exact hoob h
    · exact ih _ hI h

/-- C10: starting from a producer with no in-flight KeyRequests and no
pending interests, no reachable handler invocation — handleCoveringKey,
handleTimeout (via handleNack's path) or encryptContentKey — ever reaches a
throwing `m_keyRequests.at` lookup: `Effect.oob` never appears in the effect
trace of any event sequence, i.e. every such lookup runs while the KeyRequest
for its bound timeslot still exists, and no response, timeout or re-issued
stale-E-KEY interest is handled after `updateKeyRequest` erased the entry. -/
theorem claim_C10_at_lookup_safety (cfg : ProducerCfg) (encOk : Buffer → Buffer → Bool)
    (db0 : List (Nat × Buffer)) (ek0 : List (NdnName × KeyInfo)) (evs : List PEvent) :
    Effect.oob ∉ runTrace cfg encOk ⟨⟨db0, [], ek0⟩, []⟩ evs := by
  apply inv_run
  refine ⟨?_, ?_, ?_, List.nodup_nil⟩
  · intro p hp
    exact absurd hp (List.not_mem_nil p)
  · intro pr hpr
    exact absurd hpr (List.not_mem_nil pr)
  · intro pr hpr
    exact absurd hpr (List.not_mem_nil pr)

theorem stuck_step (cfg : ProducerCfg) (encOk : Buffer → Buffer → Bool) (sys : PSys)
    (ev : PEvent) (t : Nat) (hSt : Stuck t sys) :
    Stuck t (step cfg encOk sys ev).1 ∧
    ∀ e ∈ (step cfg encOk sys ev).2, isKeysCbFor t e = false := by
  obtain ⟨krt, hkt, hcnt, hdbt⟩ := hSt
  cases ev with
  | create τ fresh cb =>
    rw [step_create]
    by_cases hhas : hasContentKey sys.ps.db τ = true
    · have hr : createContentKey cfg encOk sys.ps fresh τ cb =
          (contentKeyNameOf cfg τ, sys.ps, []) := by
        unfold createContentKey
        rw [if_pos hhas]
      rw [hr]
      dsimp only
      rw [show toPending τ cb ([] : List Effect) = [] from rfl, List.append_nil]
      exact ⟨⟨krt, hkt, hcnt, hdbt⟩, by intro e he; simp at he⟩
    · have ht : t ≠ τ := by
        intro hc
        rw [← hc] at hhas
        exact hhas hdbt
      obtain ⟨hfa, hfm, hft⟩ := createContentKey_frameT cfg encOk sys.ps fresh τ cb t ht
      refine ⟨⟨krt, ?_, ?_, ?_⟩, ?_⟩
      · dsimp only
        rw [hfa]
        exact hkt
      · dsimp only
        rw [pendCount_append, pendCount_toPending, if_neg (fun hc => ht hc.symm)]
        rw [Nat.add_zero]
        exact hcnt
      · dsimp only
        exact hfm hdbt
      · exact hft
  | netData idx keyName payload =>
    cases hp : sys.pending.get? idx with
    | none =>
      rw [step_netData_none cfg encOk sys idx keyName payload hp]
      exact ⟨⟨krt, hkt, hcnt, hdbt⟩, by intro e he; simp at he⟩
    | some p =>
      rw [step_netData_some cfg encOk sys idx keyName payload p hp]
      dsimp only
      obtain ⟨hdb, hne, hnd, hoob, hacct⟩ := handleCoveringKey_acct cfg encOk sys.ps
        p.interest p.dIdx keyName payload p.timeslot p.cb
      exact stuck_rebuild sys idx p _ _ p.cb t ⟨krt, hkt, hcnt, hdbt⟩ hp hdb hne hacct
  | netNack idx =>
    cases hp : sys.pending.get? idx with
    | none =>
      rw [step_netNack_none cfg encOk sys idx hp]
      exact ⟨⟨krt, hkt, hcnt, hdbt⟩, by intro e he; simp at he⟩
    | some p =>
      rw [step_netNack_some cfg encOk sys idx p hp]
      dsimp only
      obtain ⟨hdb, hne, hnd, hoob, hacct⟩ := handleNackP_acct cfg sys.ps
        p.interest p.dIdx p.timeslot p.cb
      exact stuck_rebuild sys idx p _ _ p.cb t ⟨krt, hkt, hcnt, hdbt⟩ hp hdb hne hacct
  | netTimeout idx =>
    cases hp : sys.pending.get? idx with
    | none =>
      rw [step_netTimeout_none cfg encOk sys idx hp]
      exact ⟨⟨krt, hkt, hcnt, hdbt⟩, by intro e he; simp at he⟩
    | some p =>
      rw [step_netTimeout_some cfg encOk sys idx p hp]
      dsimp only
      obtain ⟨hdb, hne, hnd, hoob, hacct⟩ := handleTimeoutP_acct cfg sys.ps
        p.interest p.dIdx p.timeslot p.cb
      exact stuck_rebuild sys idx p _ _ p.cb t ⟨krt, hkt, hcnt, hdbt⟩ hp hdb hne hacct

theorem stuck_run (cfg : ProducerCfg) (encOk : Buffer → Buffer → Bool) :
    ∀ (evs : List PEvent) (sys : PSys) (t : Nat), Stuck t sys →
      ∀ e ∈ runTrace cfg encOk sys evs, isKeysCbFor t e = false := by
  intro evs
  induction evs with
  | nil =>
    intro sys t _ e he
    simp [runTrace] at he
  | cons ev rest ih =>
    intro sys t hSt e he
    obtain ⟨hSt2, htag⟩ := stuck_step cfg encOk sys ev t hSt
    simp only [runTrace] at he
    rcases List.mem_append.mp he with h | h
    · exact htag e h
    · exact ih _ t hSt2 e h

/-- C1: when the RSA-OAEP wrap of the C-KEY fails (the oracle reports a
throw), `encryptContentKey` invokes the error callback with
`EncryptionFailure` and returns false with the producer state unchanged —
`interestCount` is not decremented, nothing is appended to `encryptedKeys`,
and the KeyRequest entry stays in `m_keyRequests`; and consequently, once one
such failure has consumed a pending interest of a fully accounted KeyRequest,
the completion callback for that KeyRequest never fires: neither in the
failing step's effects nor anywhere in the rest of the trace. -/
theorem claim_C1_encryption_failure (cfg : ProducerCfg) (encOk : Buffer → Buffer → Bool)
    (sys : PSys) (idx : Nat) (p : PendInterest) (kr : KeyRequest) (keyName : NdnName)
    (payload : Buffer) (b e : Nat) (evs : List PEvent)
    (hget : sys.pending.get? idx = some p)
    (hkr : alookup sys.ps.keyRequests p.timeslot = some kr)
    (hcnt : Int.ofNat (pendCount sys.pending p.timeslot) ≤ kr.interestCount)
    (hdbt : hasContentKey sys.ps.db p.timeslot = true)
    (hg2 : getNeg keyName 2 = some (Component.iso b))
    (hg1 : getNeg keyName 1 = some (Component.iso e))
    (hfresh : ¬ e ≤ p.timeslot)
    (hfail : encOk payload (getContentKey sys.ps.db p.timeslot) = false) :
    encryptContentKey cfg encOk sys.ps payload keyName p.timeslot p.cb =
      (false, sys.ps,
       [Effect.encryptData (getContentKey sys.ps.db p.timeslot) keyName payload,
        Effect.errorCb ErrorCode.encryptionFailure]) ∧
    (step cfg encOk sys (PEvent.netData idx keyName payload)).1.ps = sys.ps ∧
    (∀ x ∈ (step cfg encOk sys (PEvent.netData idx keyName payload)).2 ++
        runTrace cfg encOk (step cfg encOk sys (PEvent.netData idx keyName payload)).1 evs,
      isKeysCbFor p.timeslot x = false) := by
  have hW : encryptContentKey cfg encOk sys.ps payload keyName p.timeslot p.cb =
      (false, sys.ps,
       [Effect.encryptData (getContentKey sys.ps.db p.timeslot) keyName payload,
        Effect.errorCb ErrorCode.encryptionFailure]) := by
    rw [encryptContentKey_spec cfg encOk sys.ps payload keyName p.timeslot p.cb kr hkr]
    rw [if_neg (by simp [hfail])]
  have hHCK : handleCoveringKey cfg encOk sys.ps p.interest p.dIdx keyName payload
      p.timeslot p.cb =
      (sys.ps,
       [Effect.encryptData (getContentKey sys.ps.db p.timeslot) keyName payload,
        Effect.errorCb ErrorCode.encryptionFailure]) := by
    unfold handleCoveringKey
    rw [hkr]
    dsimp only
    rw [hg2, hg1]
    dsimp only [parseIso]
    rw [if_neg hfresh]
    rw [hW]
    dsimp only
    rw [if_neg (by simp)]
  refine ⟨hW, ?_, ?_⟩
  · rw [step_netData_some cfg encOk sys idx keyName payload p hget, hHCK]
  · intro x hx
    rw [step_netData_some cfg encOk sys idx keyName payload p hget, hHCK] at hx
    dsimp only at hx
    rcases List.mem_append.mp hx with h1 | h2
    · rcases List.mem_cons.mp h1 with h1a | h1b
      · rw [h1a]
        rfl
      · rw [List.mem_singleton.mp h1b]
        rfl
    · have hpmem : p ∈ sys.pending := List.get?_mem hget
      have hremove := pendCount_removeIdx sys.pending idx p p.timeslot hget
      rw [if_pos rfl] at hremove
      have hSt : Stuck p.timeslot
          ⟨sys.ps, removeIdx sys.pending idx ++
            toPending p.timeslot p.cb
              [Effect.encryptData (getContentKey sys.ps.db p.timeslot) keyName payload,
               Effect.errorCb ErrorCode.encryptionFailure]⟩ := by
        refine ⟨kr, hkr, ?_, hdbt⟩
        dsimp only
        rw [pendCount_append, pendCount_toPending]
        have hs : sendsOf [Effect.encryptData (getContentKey sys.ps.db p.timeslot)
            keyName payload, Effect.errorCb ErrorCode.encryptionFailure] = [] := rfl
        rw [hs, if_pos rfl]
        have hpc1 : 1 ≤ pendCount sys.pending p.timeslot :=
          pendCount_pos_of_mem sys.pending p p.timeslot hpmem rfl
        simp only [Int.ofNat_eq_coe, List.length_nil] at hcnt ⊢
        omega
      exact stuck_run cfg encOk evs _ p.timeslot hSt x h2

/-- Witness for C1 at a concrete failing system: one pending interest for
timeslot 0, a KeyRequest owing one interest, a C-KEY row in the DB, and an
encryption oracle that always throws. -/
theorem claim_C1_encryption_failure_witness :
    encryptContentKey (⟨[], 3, 0⟩ : ProducerCfg) (fun _ _ => false)
        (⟨[(0, [7])], [(0, ⟨1, [], []⟩)], []⟩ : ProducerState) [3]
        [Component.gen 1, Component.iso 5, Component.iso 10] 0 true =
      (false, (⟨[(0, [7])], [(0, ⟨1, [], []⟩)], []⟩ : ProducerState),
       [Effect.encryptData [7] [Component.gen 1, Component.iso 5, Component.iso 10] [3],
        Effect.errorCb ErrorCode.encryptionFailure]) :=
  (claim_C1_encryption_failure ⟨[], 3, 0⟩ (fun _ _ => false)
    ⟨⟨[(0, [7])], [(0, ⟨1, [], []⟩)], []⟩,
      [⟨⟨[], ⟨none, none⟩, none, false, none⟩, 0, 0, true⟩]⟩
    0 ⟨⟨[], ⟨none, none⟩, none, false, none⟩, 0, 0, true⟩ ⟨1, [], []⟩
    [Component.gen 1, Component.iso 5, Component.iso 10] [3] 5 10 []
    rfl rfl (by decide) rfl rfl rfl (by decide) rfl).1

end Gep
